import Mathlib

/-!
# sqlcheck: left-context validation of a restricted SELECT syntax

A shallow embedding of `sqlcheck.go`: the token kinds, the table of allowed
left neighbours, the classifier `getAstItem`, the validator `check` and the
scan loop of `Verify`, followed by theorems about them.

Conventions of the embedding.

* A Go `string` of valid UTF-8 is a `List Char`, the runes that
  `bufio.ScanRunes` delivers for it, one per `Char`. A Go `string` in general
  is the list of its bytes: `ScanRunes` decodes it, with U+FFFD for each byte
  that starts no valid encoding, and `NewCheckBuffered` builds the lexer over
  the bytes.
* An `error` is `Option String`: `none` is `nil`, `some m` is an error whose
  message is `m`.
* `check` and `Verify`, methods with a pointer receiver, return the lexer
  they leave next to their error; `getAstItem` reads nothing of the lexer and
  is a function of its argument.
-/

namespace sqlcheck

/-! ## Token kinds and the rule table -/

/-- The constants of type `token`, in the order of the `iota` block. -/
inductive token where
  | tokenIllegal
  | tokenEOF
  | tokenLeftBracket
  | tokenRightBracket
  | tokenAsterisk
  | tokenComma
  | tokenSemicolon
  | tokenSelect
  | tokenFrom
  | tokenWhere
  | tokenLessThan
  | tokenMoreThan
  | tokenEqualTo
  | tokenNumeral
  | tokenIdent
  deriving DecidableEq, Repr

open token

/-- The map `syntaxRules`: what must be before a token. A kind without an
entry reads as the nil slice, as a Go map lookup does. -/
def syntaxRules : token → List token
  | tokenSelect => [tokenEOF, tokenLeftBracket]
  | tokenIdent => [tokenSelect, tokenFrom, tokenWhere, tokenLessThan, tokenMoreThan, tokenComma]
  | tokenFrom => [tokenIdent, tokenAsterisk]
  | tokenWhere => [tokenIdent]
  | tokenLessThan => [tokenIdent, tokenNumeral]
  | tokenMoreThan => [tokenIdent, tokenNumeral]
  | tokenEqualTo => [tokenIdent, tokenNumeral]
  | tokenAsterisk => [tokenSelect]
  | tokenNumeral => [tokenWhere, tokenLessThan, tokenMoreThan, tokenEqualTo]
  | tokenSemicolon => [tokenIdent, tokenNumeral]
  | tokenComma => [tokenIdent]
  | _ => []

/-- The method `String` of `token`. The switch has no case for
`tokenSemicolon`, which therefore falls to the final `return "illegal"`. -/
def token.String : token → String
  | tokenEOF => "EOF"
  | tokenLeftBracket => "("
  | tokenRightBracket => ")"
  | tokenAsterisk => "*"
  | tokenComma => ","
  | tokenSelect => "SELECT"
  | tokenFrom => "FROM"
  | tokenWhere => "WHERE"
  | tokenLessThan => "<"
  | tokenMoreThan => ">"
  | tokenEqualTo => "="
  | tokenNumeral => "(0..9)"
  | tokenIdent => "identifier"
  | _ => "illegal"

/-! ## The accepted-token sequence -/

/-- The struct `astItem`. -/
inductive astItem where
  | mk (tok : token) (pos : Int) (value : List Char) (children : List astItem)

/-- Field `tok`. -/
def astItem.tok : astItem → token
  | .mk t _ _ _ => t

/-- Field `pos`. -/
def astItem.pos : astItem → Int
  | .mk _ p _ _ => p

/-- Field `value`. -/
def astItem.value : astItem → List Char
  | .mk _ _ v _ => v

/-- Field `children`. -/
def astItem.children : astItem → List astItem
  | .mk _ _ _ c => c

/-- The struct `astRoot`. -/
structure astRoot where
  children : List astItem

/-- The method `append` of `astRoot`. -/
def astRoot.append (root : astRoot) (newItem : astItem) : astRoot :=
  { root with children := root.children ++ [newItem] }

/-- The struct `sqlLexer`. The field `scanner` holds the runes the
`bufio.Scanner` delivers under the `ScanRunes` split, in order. -/
structure sqlLexer where
  scanner : List Char
  curToken : List Char
  ast : astRoot

/-! ## Character classes -/

/-- The first byte of the UTF-8 encoding of a rune: what `s[0]` reads when
`s` is the text of one rune. -/
def firstByte (c : Char) : Nat :=
  if c.toNat < 0x80 then c.toNat
  else if c.toNat < 0x800 then 0xC0 + c.toNat / 0x40
  else if c.toNat < 0x10000 then 0xE0 + c.toNat / 0x1000
  else 0xF0 + c.toNat / 0x40000

/-- The function `isWhitespace`. -/
def isWhitespace (s : List Char) : Bool :=
  if s = [' '] ∨ s = ['\t'] ∨ s = ['\n'] ∨ s = ['\r'] then true else false

/-- The function `isNumeral`. The Go code indexes `s[0]` and would panic on
the empty string, which no caller passes; the embedding answers `false`. -/
def isNumeral (s : List Char) : Bool :=
  match s with
  | [] => false
  | c :: _ => if firstByte c > 47 ∧ firstByte c < 58 then true else false

/-- The function `isIdent`, with the same remark on the empty string. -/
def isIdent (s : List Char) : Bool :=
  match s with
  | [] => false
  | c :: _ =>
    if (firstByte c > 64 ∧ firstByte c < 91) ∨ (firstByte c > 96 ∧ firstByte c < 123) then true
    else false

/-! ## Library functions used by the classifier and the validator -/

/-- The width of Go's `int` (`strconv.IntSize`) on a 64-bit target. -/
def intSize : Nat := 64

/-- The digits loop of `strconv.Atoi`: the value of a string of decimal
digits, or `none` at the first byte that is not a digit. -/
def parseDigits : Nat → List Char → Option Nat
  | n, [] => some n
  | n, ch :: rest =>
    if 48 ≤ ch.toNat ∧ ch.toNat ≤ 57 then parseDigits (n * 10 + (ch.toNat - 48)) rest
    else none

/-- The magnitude part of `strconv.Atoi`: at least one digit, only digits. -/
def parseMagnitude (s : List Char) : Option Nat :=
  match s with
  | [] => none
  | _ => parseDigits 0 s

/-- `strconv.Atoi`: an optional sign, then decimal digits, with a range
error when the value does not fit `int`. `none` stands for `err != nil`. -/
def Atoi (s : List Char) : Option Int :=
  match s with
  | '-' :: rest =>
    match parseMagnitude rest with
    | some n => if n ≤ 2 ^ (intSize - 1) then some (-(n : Int)) else none
    | none => none
  | '+' :: rest =>
    match parseMagnitude rest with
    | some n => if n < 2 ^ (intSize - 1) then some (n : Int) else none
    | none => none
  | _ =>
    match parseMagnitude s with
    | some n => if n < 2 ^ (intSize - 1) then some (n : Int) else none
    | none => none

/-- `strings.ToLower` on the letters `A`..`Z`. On runes outside ASCII Go
applies the Unicode lower-case mapping, which sends no such rune to a letter of
`select`, `from` or `where` or to a punctuation character, so that the switch
of `getAstItem` takes the same branch on this function as on Go's. -/
def ToLower (s : List Char) : List Char :=
  s.map Char.toLower

/-- The verb `%q` of `fmt` applied to a `token`: its `String()` between
double quotes. No display name holds a character that `strconv.Quote`
escapes. -/
def fmtQ (tok : token) : String :=
  "\"" ++ tok.String ++ "\""

/-- The verb `%v` of `fmt` applied to a `[]token`: the elements, each through
`String()`, separated by one space, between square brackets. -/
def fmtV (lValues : List token) : String :=
  "[" ++ " ".intercalate (lValues.map token.String) ++ "]"

/-! ## Validator, classifier, scan loop -/

/-- The loop of `check` that looks for `prevToken` among `lValues`. -/
def validLvalue (prevToken : token) : List token → Bool
  | [] => false
  | x :: rest => if prevToken = x then true else validLvalue prevToken rest

/-- The method `check`. The guard `len(l.ast.children) == 0` and the read of
the last element are one match on `getLast?`. -/
def check (l : sqlLexer) (tok : token) : sqlLexer × Option String :=
  match l.ast.children.getLast? with
  | none => (l, none)
  | some prev =>
    let lValues := syntaxRules tok
    let prevToken := prev.tok
    if !validLvalue prevToken lValues then
      (l, some ("left side of " ++ fmtQ tok ++ " must be one of " ++ fmtV lValues))
    else (l, none)

/-- The method `getAstItem`. The fields `pos` and `children` are not set and
keep their zero values. -/
def getAstItem (v : List Char) : astItem :=
  let vLower := ToLower v
  let t :=
    if vLower = "select".toList then tokenSelect
    else if vLower = "from".toList then tokenFrom
    else if vLower = "where".toList then tokenWhere
    else if vLower = "*".toList then tokenAsterisk
    else if vLower = ",".toList then tokenComma
    else if vLower = ";".toList then tokenSemicolon
    else if vLower = "<".toList then tokenLessThan
    else if vLower = ">".toList then tokenMoreThan
    else if vLower = "=".toList then tokenEqualTo
    else if (Atoi v).isSome then tokenNumeral
    else tokenIdent
  astItem.mk t 0 v []

/-- The block that occurs three times in `Verify`:
`item := l.getAstItem(v)`, then `l.check(item.tok)` with a return on error,
then `l.ast.append(item)`. -/
def acceptItem (l : sqlLexer) (v : List Char) : sqlLexer × Option String :=
  let item := getAstItem v
  match check l item.tok with
  | (l, some err) => (l, some err)
  | (l, none) => ({ l with ast := l.ast.append item }, none)

/-- One iteration of the loop of `Verify` on the rune `text`. The error, when
there is one, is what `Verify` returns at once. -/
def scanStep (l : sqlLexer) (text : List Char) : sqlLexer × Option String :=
  if isWhitespace text then
    if l.curToken.length > 0 then
      match acceptItem l l.curToken with
      | (l, some err) => (l, some err)
      | (l, none) => ({ l with curToken := [] }, none)
    else (l, none)
  else if isNumeral text ∧ l.curToken.length = 0 then
    ({ l with curToken := l.curToken ++ text }, none)
  else if (isNumeral text ∧ l.curToken.length > 0) ∨ isIdent text then
    ({ l with curToken := l.curToken ++ text }, none)
  else
    let r :=
      if l.curToken.length > 0 then
        match acceptItem l l.curToken with
        | (l, some err) => (l, some err)
        | (l, none) => ({ l with curToken := [] }, none)
      else (l, none)
    match r with
    | (l, some err) => (l, some err)
    | (l, none) => acceptItem l text

/-- The loop `for l.scanner.Scan()` of `Verify` over the runes still to be
read. It ends with `nil` when the runes are exhausted. -/
def scanLoop : List Char → sqlLexer → sqlLexer × Option String
  | [], l => (l, none)
  | c :: rest, l =>
    match scanStep l [c] with
    | (l, some err) => (l, some err)
    | (l, none) => scanLoop rest l

/-- The method `Verify`: the lexer it leaves and the error it returns. -/
def Verify (l : sqlLexer) : sqlLexer × Option String :=
  scanLoop l.scanner l

/-- The constructor `NewCheck`, on a statement of valid UTF-8 that is given by
its runes. On a statement given by its bytes, valid UTF-8 or not, it is
`NewCheckBuffered` below. -/
def NewCheck (stmt : List Char) : sqlLexer :=
  { scanner := stmt, curToken := [], ast := { children := [] } }

/-! ## Specification-side notions

The lexemes of an input as the specification describes them, and the
adjacency condition of the rule table, written without reference to the scan
loop. -/

/-- An ASCII letter or decimal digit. -/
def isLetterOrDigit (c : Char) : Bool :=
  (48 ≤ c.toNat && c.toNat ≤ 57) || (65 ≤ c.toNat && c.toNat ≤ 90) ||
    (97 ≤ c.toNat && c.toNat ≤ 122)

/-- One of the four whitespace characters: space, tab, line feed, carriage
return. -/
def isSpaceChar (c : Char) : Bool :=
  c = ' ' || c = '\t' || c = '\n' || c = '\r'

/-- A run of letters and digits, as a lexeme when it is not empty. -/
def runLexeme (cur : List Char) : List (List Char) :=
  if cur = [] then [] else [cur]

/-- A character that is not a letter or digit, as a lexeme of its own unless
it is whitespace. -/
def charLexeme (c : Char) : List (List Char) :=
  if isSpaceChar c then [] else [[c]]

/-- The lexemes of the text `cur ++ cs`, where `cur` is an open run of letters
and digits: the maximal runs of ASCII letters and digits, and each other
character that is not whitespace, in order. -/
def lexemesFrom : List Char → List Char → List (List Char)
  | cur, [] => runLexeme cur
  | cur, c :: cs =>
    if isLetterOrDigit c then lexemesFrom (cur ++ [c]) cs
    else runLexeme cur ++ charLexeme c ++ lexemesFrom [] cs

/-- The lexemes of an input string. -/
def lexemes (s : List Char) : List (List Char) :=
  lexemesFrom [] s

/-- The kind the classifier gives a lexeme. -/
def kind (v : List Char) : token :=
  (getAstItem v).tok

/-- The rule table allows lexeme `a` right before lexeme `b`. -/
def Adjacent (a b : List Char) : Prop :=
  kind a ∈ syntaxRules (kind b)

instance : DecidableRel Adjacent :=
  fun a b => inferInstanceAs (Decidable (kind a ∈ syntaxRules (kind b)))

/-- The kind of the second lexeme of the leftmost pair of consecutive lexemes
that the rule table does not allow, where `prev` is the kind before the first
lexeme, if there is one. -/
def firstViolation : Option token → List (List Char) → Option token
  | _, [] => none
  | none, x :: xs => firstViolation (some (kind x)) xs
  | some p, x :: xs =>
    if p ∈ syntaxRules (kind x) then firstViolation (some (kind x)) xs else some (kind x)

/-- The error message as the specification words it, for a rejected kind. -/
def specMessage (k : token) : String :=
  "left side of \"" ++ k.String ++ "\" must be one of [" ++
    " ".intercalate ((syntaxRules k).map token.String) ++ "]"

/-- The kinds the classifier assigns: the nine keyword and punctuation kinds,
numeral and identifier. -/
def classifierKinds : List token :=
  [tokenSelect, tokenFrom, tokenWhere, tokenAsterisk, tokenComma, tokenSemicolon,
    tokenLessThan, tokenMoreThan, tokenEqualTo, tokenNumeral, tokenIdent]

/-! ## The scan loop as a pass over the flushed lexemes -/

/-- The lexemes the scan loop completes on the text `cs` with `cur` pending:
those of `lexemesFrom`, but for a run that reaches the end of the input. -/
def flushedFrom : List Char → List Char → List (List Char)
  | _, [] => []
  | cur, c :: cs =>
    if isLetterOrDigit c then flushedFrom (cur ++ [c]) cs
    else runLexeme cur ++ charLexeme c ++ flushedFrom [] cs

/-- The run of letters and digits that is still open at the end of `cs`. -/
def pendingFrom : List Char → List Char → List Char
  | cur, [] => cur
  | cur, c :: cs => if isLetterOrDigit c then pendingFrom (cur ++ [c]) cs else pendingFrom [] cs

/-- The verdict of `check` on a candidate kind, given the accepted sequence. -/
def allows (q : List astItem) (k : token) : Bool :=
  match q.getLast? with
  | none => true
  | some prev => validLvalue prev.tok (syntaxRules k)

/-- The message `check` builds for a rejected kind. -/
def errMsg (k : token) : String :=
  "left side of " ++ fmtQ k ++ " must be one of " ++ fmtV (syntaxRules k)

/-- Classify, validate and append a list of lexemes in order, from the
accepted sequence `q`, stopping at the first rejection. -/
def validate : List astItem → List (List Char) → List astItem × Option String
  | q, [] => (q, none)
  | q, v :: vs =>
    if allows q (kind v) then validate (q ++ [getAstItem v]) vs
    else (q, some (errMsg (kind v)))

/-- The flush of the pending lexeme, when there is one: the first block of the
whitespace branch and of the last branch of the loop body. -/
def flushPending (l : sqlLexer) : sqlLexer × Option String :=
  if l.curToken = [] then (l, none)
  else if allows l.ast.children (kind l.curToken) then
    ({ l with ast := l.ast.append (getAstItem l.curToken), curToken := [] }, none)
  else (l, some (errMsg (kind l.curToken)))

/-! ## Notions for the invariants of the accepted sequence -/

/-- The rule table allows the accepted token `a` right before the accepted
token `b`. -/
def Follows (a b : astItem) : Prop :=
  a.tok ∈ syntaxRules b.tok

/-- The input with its whitespace characters removed. -/
def stripWhitespace (s : List Char) : List Char :=
  s.filter (fun c => !isSpaceChar c)

/-- The shape of a lexeme: a non-empty string of ASCII letters and digits, or
one character that is neither whitespace nor an ASCII letter or digit. -/
def LexemeShaped (v : List Char) : Prop :=
  (v ≠ [] ∧ ∀ c ∈ v, isLetterOrDigit c = true) ∨
    ∃ c, v = [c] ∧ isSpaceChar c = false ∧ isLetterOrDigit c = false

/-- The span of each lexeme of the text that starts at index `i`, where
`start` is the index of the first character of the open run, if a run is open:
the index of its first character and the index right after its last character,
which for a run is the index of the character that ends it. -/
def lexemeSpansFrom : Nat → Option Nat → List Char → List (Nat × Nat)
  | i, start, [] => (start.map (fun a => (a, i))).toList
  | i, start, c :: cs =>
    if isLetterOrDigit c then lexemeSpansFrom (i + 1) (some (start.getD i)) cs
    else (start.map (fun a => (a, i))).toList ++
      (if isSpaceChar c then [] else [(i, i + 1)]) ++ lexemeSpansFrom (i + 1) none cs

/-- The span of each lexeme of an input, in order. -/
def lexemeSpans (s : List Char) : List (Nat × Nat) :=
  lexemeSpansFrom 0 none s

/-- Whether the field `pos` of every accepted token is an index of the input
within the span of the lexeme of that token, its two ends included. -/
def posWithinSpans (s : List Char) : Bool :=
  ((Verify (NewCheck s)).1.ast.children.zip (lexemeSpans s)).all
    (fun x => decide ((x.2.1 : Int) ≤ x.1.pos ∧ x.1.pos ≤ (x.2.2 : Int)))

/-! ## Statements given by their bytes

A Go string is a sequence of bytes, and the scanner reads it through
`bufio.ScanRunes`, which decodes UTF-8 and delivers the rune U+FFFD for every
byte that does not start a valid encoding. A byte is a natural number below
256. -/

/-- The rune `utf8.RuneError`, U+FFFD. -/
def RuneError : Char := Char.ofNat 0xFFFD

/-- The length of the UTF-8 sequence that the byte `p0` starts, from the table
`first` of `unicode/utf8`; 0 when `p0` starts no sequence of two bytes or
more. -/
def seqSize (p0 : Nat) : Nat :=
  if 0xC2 ≤ p0 ∧ p0 ≤ 0xDF then 2
  else if 0xE0 ≤ p0 ∧ p0 ≤ 0xEF then 3
  else if 0xF0 ≤ p0 ∧ p0 ≤ 0xF4 then 4
  else 0

/-- The lowest second byte that `utf8.acceptRanges` allows after `p0`. -/
def acceptLo (p0 : Nat) : Nat :=
  if p0 = 0xE0 then 0xA0 else if p0 = 0xF0 then 0x90 else 0x80

/-- The highest second byte that `utf8.acceptRanges` allows after `p0`. -/
def acceptHi (p0 : Nat) : Nat :=
  if p0 = 0xED then 0x9F else if p0 = 0xF4 then 0x8F else 0xBF

/-- `utf8.DecodeRune`: the first rune of `p` and its width in bytes, or
`RuneError` with width 1 when `p` does not start with a valid encoding. -/
def DecodeRune (p : List Nat) : Char × Nat :=
  match p with
  | [] => (RuneError, 0)
  | p0 :: rest =>
    if p0 < 0x80 then (Char.ofNat p0, 1)
    else if seqSize p0 = 0 then (RuneError, 1)
    else if (p0 :: rest).length < seqSize p0 then (RuneError, 1)
    else
      match rest with
      | [] => (RuneError, 1)
      | b1 :: r1 =>
        if b1 < acceptLo p0 ∨ acceptHi p0 < b1 then (RuneError, 1)
        else if seqSize p0 ≤ 2 then (Char.ofNat (p0 % 32 * 64 + b1 % 64), 2)
        else
          match r1 with
          | [] => (RuneError, 1)
          | b2 :: r2 =>
            if b2 < 0x80 ∨ 0xBF < b2 then (RuneError, 1)
            else if seqSize p0 ≤ 3 then
              (Char.ofNat (p0 % 16 * 4096 + b1 % 64 * 64 + b2 % 64), 3)
            else
              match r2 with
              | [] => (RuneError, 1)
              | b3 :: _ =>
                if b3 < 0x80 ∨ 0xBF < b3 then (RuneError, 1)
                else
                  (Char.ofNat (p0 % 8 * 262144 + b1 % 64 * 4096 + b2 % 64 * 64 + b3 % 64), 4)

/-- The runes that a `bufio.Scanner` with the split function `ScanRunes`
delivers over the bytes `data`, in order: an ASCII byte as it is, a valid
encoding of two to four bytes as its rune, with an advance of its width, and
for any other byte the error rune, with an advance of one byte. The last case
of the inner match is not reached: `DecodeRune` gives a width above 1 only when
the bytes are there. -/
def ScanRunes : List Nat → List Char
  | [] => []
  | p0 :: rest =>
    if (DecodeRune (p0 :: rest)).2 > 1 then
      (DecodeRune (p0 :: rest)).1 ::
        match (DecodeRune (p0 :: rest)).2, rest with
        | 2, _ :: r1 => ScanRunes r1
        | 3, _ :: _ :: r2 => ScanRunes r2
        | _, _ :: _ :: _ :: r3 => ScanRunes r3
        | _, _ => []
    else (if p0 < 0x80 then Char.ofNat p0 else RuneError) :: ScanRunes rest

/-- The constructor `NewCheckBuffered`, on a reader that yields the bytes
`buf`. `NewCheck(stmt)` builds the same lexer over
`bytes.NewBufferString(stmt)`, so that this is also `NewCheck` on a Go string
given by its bytes, valid UTF-8 or not. -/
def NewCheckBuffered (buf : List Nat) : sqlLexer :=
  { scanner := ScanRunes buf, curToken := [], ast := { children := [] } }

/-- The bytes of the UTF-8 encoding of a rune. -/
def encodeRune (c : Char) : List Nat :=
  if c.toNat < 0x80 then [c.toNat]
  else if c.toNat < 0x800 then [0xC0 + c.toNat / 64, 0x80 + c.toNat % 64]
  else if c.toNat < 0x10000 then
    [0xE0 + c.toNat / 4096, 0x80 + c.toNat / 64 % 64, 0x80 + c.toNat % 64]
  else
    [0xF0 + c.toNat / 262144, 0x80 + c.toNat / 4096 % 64, 0x80 + c.toNat / 64 % 64,
      0x80 + c.toNat % 64]

/-- The bytes of a string of valid UTF-8 that is given by its runes. -/
def utf8 (s : List Char) : List Nat :=
  s.flatMap encodeRune

/-- A byte string with the four whitespace bytes removed: space, tab, line
feed, carriage return. -/
def stripWhitespaceBytes (b : List Nat) : List Nat :=
  b.filter (fun x => !(x = 0x20 || x = 0x09 || x = 0x0A || x = 0x0D))

/-! ## Lemmas on the character classes -/

theorem isWhitespace_single (c : Char) : isWhitespace [c] = isSpaceChar c := by
  simp only [isWhitespace, isSpaceChar, List.cons.injEq, and_true]
  by_cases h1 : c = ' ' <;> by_cases h2 : c = '\t' <;> by_cases h3 : c = '\n' <;>
    by_cases h4 : c = '\r' <;> simp [h1, h2, h3, h4]

theorem isNumeral_single (c : Char) :
    isNumeral [c] = (decide (48 ≤ c.toNat) && decide (c.toNat ≤ 57)) := by
  simp only [isNumeral, firstByte]
  rw [Bool.eq_iff_iff]
  simp only [Bool.and_eq_true, decide_eq_true_eq, gt_iff_lt]
  split_ifs <;> simp <;> omega

theorem isIdent_single (c : Char) :
    isIdent [c] = ((decide (65 ≤ c.toNat) && decide (c.toNat ≤ 90)) ||
      (decide (97 ≤ c.toNat) && decide (c.toNat ≤ 122))) := by
  simp only [isIdent, firstByte]
  rw [Bool.eq_iff_iff]
  simp only [Bool.and_eq_true, Bool.or_eq_true, decide_eq_true_eq, gt_iff_lt]
  split_ifs <;> simp <;> omega

theorem isLetterOrDigit_eq (c : Char) :
    isLetterOrDigit c = (isNumeral [c] || isIdent [c]) := by
  rw [isNumeral_single, isIdent_single, isLetterOrDigit, Bool.or_assoc]

theorem space_not_letterOrDigit (c : Char) (h : isSpaceChar c = true) :
    isLetterOrDigit c = false := by
  simp only [isSpaceChar, Bool.or_eq_true, decide_eq_true_eq] at h
  rcases h with ((h | h) | h) | h <;> subst h <;> decide

/-! ## Lemmas on the validator and on one step of the loop -/

theorem validLvalue_iff (p : token) (xs : List token) :
    validLvalue p xs = true ↔ p ∈ xs := by
  induction xs with
  | nil => simp [validLvalue]
  | cons x rest ih =>
    by_cases h : p = x
    · simp [validLvalue, h]
    · simp [validLvalue, h, ih]

theorem check_eq (l : sqlLexer) (k : token) :
    check l k = (l, if allows l.ast.children k then none else some (errMsg k)) := by
  unfold check allows errMsg
  cases l.ast.children.getLast? with
  | none => simp
  | some prev => cases h : validLvalue prev.tok (syntaxRules k) <;> simp [h]

theorem acceptItem_eq (l : sqlLexer) (v : List Char) :
    acceptItem l v =
      if allows l.ast.children (kind v) then
        ({ l with ast := l.ast.append (getAstItem v) }, none)
      else (l, some (errMsg (kind v))) := by
  unfold acceptItem
  simp only [check_eq, kind]
  cases allows l.ast.children (getAstItem v).tok <;> simp

theorem scanStep_letterOrDigit (l : sqlLexer) (c : Char) (h : isLetterOrDigit c = true) :
    scanStep l [c] = ({ l with curToken := l.curToken ++ [c] }, none) := by
  have hs : isWhitespace [c] = false := by
    rw [isWhitespace_single]
    cases hc : isSpaceChar c
    · rfl
    · rw [space_not_letterOrDigit c hc] at h; cases h
  rw [isLetterOrDigit_eq, Bool.or_eq_true] at h
  unfold scanStep
  rw [hs]
  rcases h with h | h
  · by_cases h0 : l.curToken.length = 0
    · simp [h, h0]
    · have : l.curToken.length > 0 := Nat.pos_of_ne_zero h0
      simp [h, h0, this]
  · by_cases hn : isNumeral [c] = true ∧ l.curToken.length = 0
    · simp [hn]
    · simp [hn, h]

theorem scanStep_space (l : sqlLexer) (c : Char) (h : isSpaceChar c = true) :
    scanStep l [c] = flushPending l := by
  unfold scanStep flushPending
  rw [isWhitespace_single, h]
  by_cases h0 : l.curToken = []
  · simp [h0]
  · have : l.curToken.length > 0 := List.length_pos.mpr h0
    simp only [this, if_true, h0, if_false, acceptItem_eq]
    cases allows l.ast.children (kind l.curToken) <;> simp

theorem scanStep_other (l : sqlLexer) (c : Char) (hs : isSpaceChar c = false)
    (h : isLetterOrDigit c = false) :
    scanStep l [c] =
      match flushPending l with
      | (l, some err) => (l, some err)
      | (l, none) => acceptItem l [c] := by
  rw [isLetterOrDigit_eq, Bool.or_eq_false_iff] at h
  unfold scanStep flushPending
  rw [isWhitespace_single, hs]
  simp only [h.1, h.2, Bool.false_eq_true, false_and, false_or, if_false]
  by_cases h0 : l.curToken = []
  · simp [h0]
  · have : l.curToken.length > 0 := List.length_pos.mpr h0
    simp only [this, if_true, h0, if_false, acceptItem_eq]
    cases allows l.ast.children (kind l.curToken) <;> simp

/-! ## The scan loop is a pass of `validate` over the flushed lexemes -/

theorem validate_append (q : List astItem) (xs ys : List (List Char)) :
    validate q (xs ++ ys) =
      match validate q xs with
      | (q', some err) => (q', some err)
      | (q', none) => validate q' ys := by
  induction xs generalizing q with
  | nil => simp [validate]
  | cons x rest ih =>
    simp only [List.cons_append, validate]
    cases allows q (kind x)
    · simp
    · simp [ih]

theorem scanLoop_spec (cs : List Char) (l : sqlLexer) :
    (scanLoop cs l).2 = (validate l.ast.children (flushedFrom l.curToken cs)).2 ∧
    (scanLoop cs l).1.ast.children =
      (validate l.ast.children (flushedFrom l.curToken cs)).1 ∧
    ((validate l.ast.children (flushedFrom l.curToken cs)).2 = none →
      (scanLoop cs l).1.curToken = pendingFrom l.curToken cs) := by
  induction cs generalizing l with
  | nil => simp [scanLoop, flushedFrom, validate, pendingFrom]
  | cons c cs ih =>
    by_cases h : isLetterOrDigit c = true
    · have := ih { l with curToken := l.curToken ++ [c] }
      simpa [scanLoop, scanStep_letterOrDigit l c h, flushedFrom, pendingFrom, h] using this
    · have h : isLetterOrDigit c = false := by simpa using h
      by_cases h0 : l.curToken = []
      · by_cases hs : isSpaceChar c = true
        · have := ih l
          rw [h0] at this
          simpa [scanLoop, scanStep_space l c hs, flushPending, flushedFrom, pendingFrom, h,
            h0, runLexeme, charLexeme, hs] using this
        · have hs : isSpaceChar c = false := by simpa using hs
          by_cases ha : allows l.ast.children (kind [c]) = true
          · have := ih { l with ast := l.ast.append (getAstItem [c]) }
            rw [h0] at this
            simpa [scanLoop, scanStep_other l c hs h, flushPending, flushedFrom, pendingFrom, h,
              h0, runLexeme, charLexeme, hs, acceptItem_eq, ha, validate, astRoot.append]
              using this
          · simp [scanLoop, scanStep_other l c hs h, flushPending, flushedFrom, pendingFrom, h,
              h0, runLexeme, charLexeme, hs, acceptItem_eq, ha, validate]
      · by_cases hp : allows l.ast.children (kind l.curToken) = true
        · by_cases hs : isSpaceChar c = true
          · have := ih { l with ast := l.ast.append (getAstItem l.curToken), curToken := [] }
            simpa [scanLoop, scanStep_space l c hs, flushPending, flushedFrom, pendingFrom, h,
              h0, runLexeme, charLexeme, hs, hp, validate, astRoot.append] using this
          · have hs : isSpaceChar c = false := by simpa using hs
            by_cases ha : allows (l.ast.children ++ [getAstItem l.curToken]) (kind [c]) = true
            · have := ih { l with
                ast := (l.ast.append (getAstItem l.curToken)).append (getAstItem [c]),
                curToken := [] }
              simpa [scanLoop, scanStep_other l c hs h, flushPending, flushedFrom, pendingFrom,
                h, h0, runLexeme, charLexeme, hs, hp, acceptItem_eq, ha, validate,
                astRoot.append] using this
            · simp [scanLoop, scanStep_other l c hs h, flushPending, flushedFrom, pendingFrom,
                h, h0, runLexeme, charLexeme, hs, hp, acceptItem_eq, ha, validate,
                astRoot.append]
        · by_cases hs : isSpaceChar c = true
          · simp [scanLoop, scanStep_space l c hs, flushPending, flushedFrom, h,
              h0, runLexeme, charLexeme, hs, hp, validate]
          · have hs : isSpaceChar c = false := by simpa using hs
            simp [scanLoop, scanStep_other l c hs h, flushPending, flushedFrom, h,
              h0, runLexeme, charLexeme, hs, hp, validate]

theorem Verify_NewCheck (s : List Char) :
    (Verify (NewCheck s)).2 = (validate [] (flushedFrom [] s)).2 ∧
    (Verify (NewCheck s)).1.ast.children = (validate [] (flushedFrom [] s)).1 ∧
    ((validate [] (flushedFrom [] s)).2 = none →
      (Verify (NewCheck s)).1.curToken = pendingFrom [] s) :=
  scanLoop_spec s (NewCheck s)

/-! ## Lexemes, flushed lexemes and the pending run -/

theorem lexemesFrom_eq (cur cs : List Char) :
    lexemesFrom cur cs = flushedFrom cur cs ++ runLexeme (pendingFrom cur cs) := by
  induction cs generalizing cur with
  | nil => simp [lexemesFrom, flushedFrom, pendingFrom]
  | cons c cs ih =>
    by_cases h : isLetterOrDigit c = true
    · simp [lexemesFrom, flushedFrom, pendingFrom, h, ih]
    · simp [lexemesFrom, flushedFrom, pendingFrom, h, ih]

theorem pendingFrom_append (cur u v : List Char) :
    pendingFrom cur (u ++ v) = pendingFrom (pendingFrom cur u) v := by
  induction u generalizing cur with
  | nil => simp [pendingFrom]
  | cons c u ih =>
    by_cases h : isLetterOrDigit c = true
    · simp [pendingFrom, h, ih]
    · simp [pendingFrom, h, ih]

theorem flushedFrom_append (cur u v : List Char) :
    flushedFrom cur (u ++ v) = flushedFrom cur u ++ flushedFrom (pendingFrom cur u) v := by
  induction u generalizing cur with
  | nil => simp [flushedFrom, pendingFrom]
  | cons c u ih =>
    by_cases h : isLetterOrDigit c = true
    · simp [flushedFrom, pendingFrom, h, ih]
    · simp [flushedFrom, pendingFrom, h, ih]

/-! ## The first violation -/

theorem kind_getAstItem (v : List Char) : (getAstItem v).tok = kind v := rfl

theorem validate_error (q : List astItem) (xs : List (List Char)) :
    (validate q xs).2 =
      (firstViolation (q.getLast?.map astItem.tok) xs).map errMsg := by
  induction xs generalizing q with
  | nil => simp [validate, firstViolation]
  | cons x rest ih =>
    cases hq : q.getLast? with
    | none =>
      have := ih (q ++ [getAstItem x])
      simpa [validate, firstViolation, allows, hq, kind_getAstItem] using this
    | some p =>
      by_cases hp : p.tok ∈ syntaxRules (kind x)
      · have hv := (validLvalue_iff p.tok (syntaxRules (kind x))).mpr hp
        have := ih (q ++ [getAstItem x])
        simpa [validate, firstViolation, allows, hq, kind_getAstItem, hp, hv] using this
      · have hv : validLvalue p.tok (syntaxRules (kind x)) = false := by
          cases h : validLvalue p.tok (syntaxRules (kind x))
          · rfl
          · exact absurd ((validLvalue_iff _ _).mp h) hp
        simp [validate, firstViolation, allows, hq, hp, hv]

theorem firstViolation_append_of_some (p : Option token) (xs ys : List (List Char))
    (k : token) (h : firstViolation p xs = some k) :
    firstViolation p (xs ++ ys) = some k := by
  induction xs generalizing p with
  | nil => simp [firstViolation] at h
  | cons x rest ih =>
    cases p with
    | none =>
      simp only [firstViolation, List.cons_append] at h ⊢
      exact ih _ h
    | some a =>
      simp only [firstViolation, List.cons_append] at h ⊢
      by_cases ha : a ∈ syntaxRules (kind x)
      · simp only [ha, if_true] at h ⊢
        exact ih _ h
      · simpa [ha] using h

theorem firstViolation_append_of_none (p : Option token) (xs ys : List (List Char))
    (h : firstViolation p (xs ++ ys) = none) :
    firstViolation p xs = none := by
  cases hx : firstViolation p xs with
  | none => rfl
  | some k => rw [firstViolation_append_of_some p xs ys k hx] at h; cases h

theorem firstViolation_some_iff (a : token) (xs : List (List Char)) :
    firstViolation (some a) xs = none ↔
      (∀ y ∈ xs.head?, a ∈ syntaxRules (kind y)) ∧ List.Chain' Adjacent xs := by
  induction xs generalizing a with
  | nil => simp [firstViolation]
  | cons x rest ih =>
    by_cases ha : a ∈ syntaxRules (kind x)
    · simp only [firstViolation, ha, if_true, ih, List.head?_cons, Option.mem_def,
        Option.some.injEq, forall_eq', true_and, List.chain'_cons']
      rfl
    · simp [firstViolation, ha]

theorem firstViolation_none_iff (xs : List (List Char)) :
    firstViolation none xs = none ↔ List.Chain' Adjacent xs := by
  cases xs with
  | nil => simp [firstViolation]
  | cons x rest =>
    simp only [firstViolation, firstViolation_some_iff, List.chain'_cons']
    rfl

theorem errMsg_eq_specMessage (k : token) : errMsg k = specMessage k := by
  have h1 : "left side of " ++ "\"" = "left side of \"" := by decide
  have h2 : "\"" ++ (" must be one of " ++ "[") = "\" must be one of [" := by decide
  unfold errMsg specMessage fmtQ fmtV
  rw [← h1, ← h2]
  simp only [String.append_assoc]

/-! ## Acceptance and rejection by `Verify` -/

/-- C1. When every pair of consecutive lexemes of the input satisfies the rule
table (the kind of the first is among the allowed left neighbours of the kind
of the second), `Verify` returns `nil`. -/
theorem verify_accepts_adjacent (s : List Char)
    (h : List.Chain' Adjacent (lexemes s)) :
    (Verify (NewCheck s)).2 = none := by
  rw [(Verify_NewCheck s).1, validate_error]
  have h1 : firstViolation none (lexemes s) = none := (firstViolation_none_iff _).mpr h
  rw [lexemes, lexemesFrom_eq] at h1
  simp [firstViolation_append_of_none _ _ _ h1]

set_option maxRecDepth 100000 in
/-- C1, at the three statements of the test suite and the specification: each
has only allowed pairs of consecutive lexemes and is accepted. -/
theorem verify_accepts_adjacent_witness :
    (List.Chain' Adjacent (lexemes "SELECT abc, def FROM names;".toList) ∧
      (Verify (NewCheck "SELECT abc, def FROM names;".toList)).2 = none) ∧
    (List.Chain' Adjacent (lexemes "SELECT name FROM names WHERE age > 20;".toList) ∧
      (Verify (NewCheck "SELECT name FROM names WHERE age > 20;".toList)).2 = none) ∧
    (List.Chain' Adjacent (lexemes "SELECT * FROM names;".toList) ∧
      (Verify (NewCheck "SELECT * FROM names;".toList)).2 = none) :=
  ⟨⟨(firstViolation_none_iff _).mp (by decide),
    verify_accepts_adjacent _ ((firstViolation_none_iff _).mp (by decide))⟩,
   ⟨(firstViolation_none_iff _).mp (by decide),
    verify_accepts_adjacent _ ((firstViolation_none_iff _).mp (by decide))⟩,
   ⟨(firstViolation_none_iff _).mp (by decide),
    verify_accepts_adjacent _ ((firstViolation_none_iff _).mp (by decide))⟩⟩

/-- C2, at the input `SELECT FROM`: its two lexemes `SELECT`, `FROM` form a
pair the rule table does not allow, yet `Verify` returns `nil`, because the
run `FROM` reaches the end of the input and is never classified. The three
rejected statements of the test suite are rejected. -/
theorem verify_misses_last_lexeme :
    lexemes "SELECT FROM".toList = ["SELECT".toList, "FROM".toList] ∧
    ¬ Adjacent "SELECT".toList "FROM".toList ∧
    (Verify (NewCheck "SELECT FROM".toList)).2 = none ∧
    (Verify (NewCheck "SELECT FROM names;".toList)).2 ≠ none ∧
    (Verify (NewCheck "SELECT 123 FROM names;".toList)).2 ≠ none ∧
    (Verify (NewCheck "SELECT name FROM names WHERE > 20;".toList)).2 ≠ none := by
  decide

/-! ## The validator -/

/-- C3. `check k` returns `nil` exactly when the accepted sequence is empty or
the kind of its last element is in `syntaxRules k`; two lexers whose accepted
sequences end in the same kind (or are both empty) get the same result for the
same `k`; and `check` returns the lexer it was given. -/
theorem check_contract (l : sqlLexer) (k : token) :
    ((check l k).2 = none ↔
      (l.ast.children = [] ∨
        ∃ p, l.ast.children.getLast? = some p ∧ p.tok ∈ syntaxRules k)) ∧
    (∀ l' : sqlLexer,
      l'.ast.children.getLast?.map astItem.tok = l.ast.children.getLast?.map astItem.tok →
        (check l' k).2 = (check l k).2) ∧
    (check l k).1 = l := by
  refine ⟨?_, ?_, ?_⟩
  · rw [check_eq]
    unfold allows
    cases hq : l.ast.children.getLast? with
    | none => simp [List.getLast?_eq_none_iff.mp hq]
    | some p =>
      have hne : l.ast.children ≠ [] := by
        intro h0; rw [h0] at hq; simp at hq
      cases hv : validLvalue p.tok (syntaxRules k)
      · have : ¬ p.tok ∈ syntaxRules k := fun h => by
          rw [(validLvalue_iff _ _).mpr h] at hv; cases hv
        simp [hne, this, hv]
      · simp [hne, (validLvalue_iff _ _).mp hv, hv]
  · intro l' h
    rw [check_eq, check_eq]
    unfold allows
    cases hq : l.ast.children.getLast? with
    | none =>
      rw [hq] at h
      cases hq' : l'.ast.children.getLast? with
      | none => rfl
      | some p' => rw [hq'] at h; simp at h
    | some p =>
      rw [hq] at h
      cases hq' : l'.ast.children.getLast? with
      | none => rw [hq'] at h; simp at h
      | some p' =>
        rw [hq'] at h
        simp only [Option.map_some', Option.some.injEq] at h
        simp [h]
  · rw [check_eq]

/-- C3, at two lexers whose accepted sequences differ but end in the same
kind, an identifier: `check` gives both the same answer for `FROM`, accepts
`FROM` and rejects `SELECT`, and leaves the lexer as it was. -/
theorem check_contract_witness :
    (check ⟨[], [], ⟨[getAstItem "SELECT".toList, getAstItem "a".toList]⟩⟩ tokenFrom).2 =
      (check ⟨[], [], ⟨[getAstItem "b".toList]⟩⟩ tokenFrom).2 ∧
    (check ⟨[], [], ⟨[getAstItem "b".toList]⟩⟩ tokenFrom).2 = none ∧
    (check ⟨[], [], ⟨[getAstItem "b".toList]⟩⟩ tokenSelect).2 ≠ none :=
  ⟨(check_contract ⟨[], [], ⟨[getAstItem "b".toList]⟩⟩ tokenFrom).2.1
      ⟨[], [], ⟨[getAstItem "SELECT".toList, getAstItem "a".toList]⟩⟩ (by decide),
    (check_contract ⟨[], [], ⟨[getAstItem "b".toList]⟩⟩ tokenFrom).1.mpr
      (Or.inr ⟨getAstItem "b".toList, rfl, by decide⟩),
    by decide⟩

/-! ## The error message -/

/-- C4. When `Verify` returns an error, the rejected kind `k` is the kind of
the second lexeme of the leftmost pair of consecutive lexemes that the rule
table does not allow, and the message is `left side of "D" must be one of
[L]` with `D` the display name of `k` and `L` the display names of
`syntaxRules k` in table order, separated by single spaces. -/
theorem verify_error_message (s : List Char) (e : String)
    (h : (Verify (NewCheck s)).2 = some e) :
    ∃ k, firstViolation none (lexemes s) = some k ∧
      e = "left side of \"" ++ k.String ++ "\" must be one of [" ++
        " ".intercalate ((syntaxRules k).map token.String) ++ "]" := by
  rw [(Verify_NewCheck s).1, validate_error] at h
  simp only [List.getLast?_nil, Option.map_none', Option.map_eq_some'] at h
  obtain ⟨k, hk, he⟩ := h
  refine ⟨k, ?_, ?_⟩
  · rw [lexemes, lexemesFrom_eq]
    exact firstViolation_append_of_some _ _ _ _ hk
  · rw [← he, errMsg_eq_specMessage]
    rfl

/-- C4, at `SELECT FROM names;`: the message is
`left side of "FROM" must be one of [identifier *]`. -/
theorem verify_error_message_witness :
    (Verify (NewCheck "SELECT FROM names;".toList)).2 =
      some "left side of \"FROM\" must be one of [identifier *]" ∧
    ∃ k, firstViolation none (lexemes "SELECT FROM names;".toList) = some k ∧
      "left side of \"FROM\" must be one of [identifier *]" =
        "left side of \"" ++ k.String ++ "\" must be one of [" ++
          " ".intercalate ((syntaxRules k).map token.String) ++ "]" :=
  ⟨by decide, verify_error_message _ _ (by decide)⟩

/-! ## The classifier -/

theorem toLower_of_upper (c : Char) (h1 : 65 ≤ c.toNat) (h2 : c.toNat ≤ 90) :
    97 ≤ (Char.toLower c).toNat ∧ (Char.toLower c).toNat ≤ 122 := by
  have hc : c = Char.ofNat c.toNat := (Char.ofNat_toNat c).symm
  generalize c.toNat = n at hc h1 h2
  subst hc
  interval_cases n <;> decide

theorem toLower_of_not_upper (c : Char) (h : ¬ (65 ≤ c.toNat ∧ c.toNat ≤ 90)) :
    Char.toLower c = c := by
  unfold Char.toLower
  simp only [ge_iff_le]
  rw [if_neg h]

theorem parseDigits_isSome (n : Nat) (s : List Char) (h : (parseDigits n s).isSome = true) :
    ∀ c ∈ s, 48 ≤ c.toNat ∧ c.toNat ≤ 57 := by
  induction s generalizing n with
  | nil => simp
  | cons ch rest ih =>
    by_cases hd : 48 ≤ ch.toNat ∧ ch.toNat ≤ 57
    · simp only [parseDigits, hd, and_self, if_true] at h
      intro c hc
      rcases List.mem_cons.mp hc with rfl | hc
      · exact hd
      · exact ih _ h c hc
    · simp [parseDigits, hd] at h

theorem parseMagnitude_isSome (s : List Char) (h : (parseMagnitude s).isSome = true) :
    ∀ c ∈ s, 48 ≤ c.toNat ∧ c.toNat ≤ 57 := by
  cases s with
  | nil => simp
  | cons ch rest => exact parseDigits_isSome 0 _ h

theorem Atoi_isSome_no_letter (v : List Char) (h : (Atoi v).isSome = true) :
    ∀ c ∈ v, c.toNat < 65 := by
  have key : ∀ s : List Char, (parseMagnitude s).isSome = true → ∀ c ∈ s, c.toNat < 65 :=
    fun s hs c hc => by have := parseMagnitude_isSome s hs c hc; omega
  unfold Atoi at h
  split at h
  · rename_i rest
    intro c hc
    rcases List.mem_cons.mp hc with rfl | hc
    · decide
    · apply key rest _ c hc
      cases hm : parseMagnitude rest with
      | none => rw [hm] at h; simp at h
      | some n => rfl
  · rename_i rest
    intro c hc
    rcases List.mem_cons.mp hc with rfl | hc
    · decide
    · apply key rest _ c hc
      cases hm : parseMagnitude rest with
      | none => rw [hm] at h; simp at h
      | some n => rfl
  · apply key v
    cases hm : parseMagnitude v with
    | none => rw [hm] at h; simp at h
    | some n => rfl

theorem ToLower_eq_self (v : List Char) (h : ∀ c ∈ v, c.toNat < 65) : ToLower v = v := by
  unfold ToLower
  induction v with
  | nil => rfl
  | cons c rest ih =>
    have hc := h c (List.mem_cons_self _ _)
    rw [List.map_cons, toLower_of_not_upper c (by omega),
      ih (fun d hd => h d (List.mem_cons_of_mem _ hd))]

theorem ToLower_no_letter (v : List Char) (h : ∀ c ∈ ToLower v, c.toNat < 65) :
    ∀ c ∈ v, c.toNat < 65 := by
  intro c hc
  have hl := h (Char.toLower c) (List.mem_map_of_mem _ hc)
  by_cases hu : 65 ≤ c.toNat ∧ c.toNat ≤ 90
  · have := toLower_of_upper c hu.1 hu.2
    omega
  · rw [toLower_of_not_upper c hu] at hl
    exact hl

theorem Atoi_ToLower (v : List Char) : (Atoi (ToLower v)).isSome = (Atoi v).isSome := by
  cases h1 : (Atoi v).isSome with
  | true => rw [ToLower_eq_self v (Atoi_isSome_no_letter v h1)]; exact h1
  | false =>
    cases h2 : (Atoi (ToLower v)).isSome with
    | false => rfl
    | true =>
      have := ToLower_no_letter v (Atoi_isSome_no_letter _ h2)
      rw [ToLower_eq_self v this, h1] at h2
      cases h2

/-- C6, at a run of twenty digits: it consists of decimal digits only, and
`getAstItem` classifies it as an identifier, because `strconv.Atoi` reports a
range error for a value that does not fit `int`. A statement that selects it
is accepted, where the same statement with `123` is rejected. -/
theorem classify_long_digit_run :
    ("99999999999999999999".toList.all Char.isDigit = true) ∧
    (getAstItem "99999999999999999999".toList).tok = tokenIdent ∧
    (getAstItem "20".toList).tok = tokenNumeral ∧
    (getAstItem "abc20".toList).tok = tokenIdent ∧
    (Verify (NewCheck "SELECT 99999999999999999999 FROM names;".toList)).2 = none ∧
    (Verify (NewCheck "SELECT 123 FROM names;".toList)).2 ≠ none := by
  decide

/-- C7. Two lexemes that differ only in the case of ASCII letters get the same
kind; every case variant of `select`, `from` and `where` gets the kind SELECT,
FROM and WHERE; and the nine keyword and punctuation lexemes get nine distinct
kinds. -/
theorem classify_case_insensitive (v v' : List Char)
    (h : v.map Char.toLower = v'.map Char.toLower) :
    kind v = kind v' ∧
    (v.map Char.toLower = "select".toList → kind v = tokenSelect) ∧
    (v.map Char.toLower = "from".toList → kind v = tokenFrom) ∧
    (v.map Char.toLower = "where".toList → kind v = tokenWhere) ∧
    ["select", "from", "where", "*", ",", ";", "<", ">", "="].map (fun x => kind x.toList) =
      [tokenSelect, tokenFrom, tokenWhere, tokenAsterisk, tokenComma, tokenSemicolon,
        tokenLessThan, tokenMoreThan, tokenEqualTo] ∧
    (["select", "from", "where", "*", ",", ";", "<", ">", "="].map
      (fun x => kind x.toList)).Nodup := by
  refine ⟨?_, ?_, ?_, ?_, by decide, by decide⟩
  · have h' : ToLower v = ToLower v' := h
    have ha : (Atoi v).isSome = (Atoi v').isSome := by
      rw [← Atoi_ToLower v, ← Atoi_ToLower v', h']
    simp only [kind, getAstItem, astItem.tok, h', ha]
  · intro hs
    have h' : ToLower v = "select".toList := hs
    simp [kind, getAstItem, astItem.tok, h']
  · intro hs
    have h' : ToLower v = "from".toList := hs
    have n1 : "from".toList ≠ "select".toList := by decide
    simp only [kind, getAstItem, astItem.tok, h', if_neg n1, if_true]
  · intro hs
    have h' : ToLower v = "where".toList := hs
    have n1 : "where".toList ≠ "select".toList := by decide
    have n2 : "where".toList ≠ "from".toList := by decide
    simp only [kind, getAstItem, astItem.tok, h', if_neg n1, if_neg n2, if_true]

/-- C7, at `SeLeCt` and `select`. -/
theorem classify_case_insensitive_witness :
    "SeLeCt".toList.map Char.toLower = "select".toList.map Char.toLower ∧
    kind "SeLeCt".toList = kind "select".toList ∧
    kind "SeLeCt".toList = tokenSelect :=
  ⟨by decide,
   (classify_case_insensitive "SeLeCt".toList "select".toList (by decide)).1,
   (classify_case_insensitive "SeLeCt".toList "select".toList (by decide)).2.1 (by decide)⟩

theorem ite_pred {α : Type} (P : α → Prop) (c : Prop) [Decidable c] (a b : α)
    (ha : P a) (hb : P b) : P (if c then a else b) := by
  split <;> assumption

/-- C8. `getAstItem` gives every string one of the eleven kinds of the
classifier, never the illegal kind; a string that is not a keyword or listed
punctuation character, in any case, and not an integer is an identifier; and
the value of the token is the string itself. -/
theorem getAstItem_total (v : List Char) :
    (getAstItem v).tok ≠ tokenIllegal ∧
    (getAstItem v).tok ∈ classifierKinds ∧
    ((getAstItem v).tok = tokenIdent ∨
      ToLower v ∈ ["select".toList, "from".toList, "where".toList, "*".toList, ",".toList,
        ";".toList, "<".toList, ">".toList, "=".toList] ∨
      (Atoi v).isSome = true) ∧
    (getAstItem v).value = v := by
  unfold getAstItem
  simp only [astItem.tok, astItem.value]
  refine ⟨?_, ?_, ?_, trivial⟩
  · iterate 10 (refine ite_pred (fun t => t ≠ tokenIllegal) _ _ _ (by decide) ?_)
    decide
  · iterate 10 (refine ite_pred (fun t => t ∈ classifierKinds) _ _ _ (by decide) ?_)
    decide
  · by_cases hk : ToLower v ∈ ["select".toList, "from".toList, "where".toList, "*".toList,
        ",".toList, ";".toList, "<".toList, ">".toList, "=".toList]
    · exact Or.inr (Or.inl hk)
    · by_cases ha : (Atoi v).isSome = true
      · exact Or.inr (Or.inr ha)
      · left
        simp only [List.mem_cons, List.mem_singleton, not_or, List.not_mem_nil,
          not_false_eq_true, and_true] at hk
        obtain ⟨k1, k2, k3, k4, k5, k6, k7, k8, k9⟩ := hk
        rw [if_neg k1, if_neg k2, if_neg k3, if_neg k4, if_neg k5, if_neg k6, if_neg k7,
          if_neg k8, if_neg k9, if_neg ha]

/-! ## Whitespace between lexemes -/

theorem pendingFrom_nil_of_last (u : List Char)
    (h : ¬ ∃ c, u.getLast? = some c ∧ isLetterOrDigit c = true) :
    pendingFrom [] u = [] := by
  rcases List.eq_nil_or_concat u with h0 | ⟨u', c, h1⟩
  · subst h0; rfl
  · rw [List.concat_eq_append] at h1
    subst h1
    have hc : isLetterOrDigit c = false := by
      cases hc : isLetterOrDigit c
      · rfl
      · exact absurd ⟨c, List.getLast?_concat u', hc⟩ h
    rw [pendingFrom_append]
    simp [pendingFrom, hc]

theorem flushedFrom_insert_space (u v : List Char) (w : Char) (hw : isSpaceChar w = true)
    (h : ¬ ((∃ c, u.getLast? = some c ∧ isLetterOrDigit c = true) ∧
        (v = [] ∨ ∃ c, v.head? = some c ∧ isLetterOrDigit c = true))) :
    flushedFrom [] (u ++ w :: v) = flushedFrom [] (u ++ v) := by
  have hwl := space_not_letterOrDigit w hw
  rw [flushedFrom_append, flushedFrom_append]
  congr 1
  by_cases hu : ∃ c, u.getLast? = some c ∧ isLetterOrDigit c = true
  · have hv : ¬ (v = [] ∨ ∃ c, v.head? = some c ∧ isLetterOrDigit c = true) :=
      fun hv => h ⟨hu, hv⟩
    cases v with
    | nil => exact absurd (Or.inl rfl) hv
    | cons c v' =>
      have hc : isLetterOrDigit c = false := by
        cases hc : isLetterOrDigit c
        · rfl
        · exact absurd (Or.inr ⟨c, rfl, hc⟩) hv
      simp [flushedFrom, hwl, hc, charLexeme, hw, runLexeme]
  · rw [pendingFrom_nil_of_last u hu]
    simp [flushedFrom, hwl, charLexeme, hw, runLexeme]

/-- C5. Inserting one whitespace character `w` between `u` and `v` changes
neither the result of `Verify` nor the accepted sequence it leaves, unless `u`
ends in an ASCII letter or digit and `v` is empty or starts with one. -/
theorem verify_insert_whitespace (u v : List Char) (w : Char)
    (hw : isSpaceChar w = true)
    (h : ¬ ((∃ c, u.getLast? = some c ∧ isLetterOrDigit c = true) ∧
        (v = [] ∨ ∃ c, v.head? = some c ∧ isLetterOrDigit c = true))) :
    (Verify (NewCheck (u ++ w :: v))).2 = (Verify (NewCheck (u ++ v))).2 ∧
    (Verify (NewCheck (u ++ w :: v))).1.ast.children =
      (Verify (NewCheck (u ++ v))).1.ast.children := by
  rw [(Verify_NewCheck (u ++ w :: v)).1, (Verify_NewCheck (u ++ v)).1,
    (Verify_NewCheck (u ++ w :: v)).2.1, (Verify_NewCheck (u ++ v)).2.1,
    flushedFrom_insert_space u v w hw h]
  exact ⟨rfl, rfl⟩

/-- C5, at a tab inserted after the comma of `SELECT a,b FROM t;` and at a
space inserted before the semicolon of `SELECT FROM t;`, which is rejected
with the same error either way. -/
theorem verify_insert_whitespace_witness :
    ((Verify (NewCheck ("SELECT a,".toList ++ '\t' :: "b FROM t;".toList))).2 =
        (Verify (NewCheck ("SELECT a,".toList ++ "b FROM t;".toList))).2 ∧
      (Verify (NewCheck ("SELECT a,".toList ++ '\t' :: "b FROM t;".toList))).1.ast.children =
        (Verify (NewCheck ("SELECT a,".toList ++ "b FROM t;".toList))).1.ast.children) ∧
    ((Verify (NewCheck ("SELECT FROM t".toList ++ ' ' :: ";".toList))).2 =
        (Verify (NewCheck ("SELECT FROM t".toList ++ ";".toList))).2 ∧
      (Verify (NewCheck ("SELECT FROM t".toList ++ ' ' :: ";".toList))).1.ast.children =
        (Verify (NewCheck ("SELECT FROM t".toList ++ ";".toList))).1.ast.children) :=
  ⟨verify_insert_whitespace "SELECT a,".toList "b FROM t;".toList '\t' (by decide)
      (by decide),
   verify_insert_whitespace "SELECT FROM t".toList ";".toList ' ' (by decide)
      (by decide)⟩

/-! ## Fail-fast -/

theorem validate_append_of_error (q : List astItem) (xs ys : List (List Char)) (e : String)
    (h : (validate q xs).2 = some e) :
    validate q (xs ++ ys) = validate q xs := by
  rw [validate_append]
  rcases hv : validate q xs with ⟨q', r⟩
  rw [hv] at h
  simp only at h
  subst h
  rfl

/-- On rune sequences: an error of the scan of `s` is the result of the scan
of `s ++ t`, with the same accepted sequence. -/
theorem fail_fast_runes (s t : List Char) :
    (∀ e, (Verify (NewCheck s)).2 = some e →
      (Verify (NewCheck (s ++ t))).2 = some e ∧
      (Verify (NewCheck (s ++ t))).1.ast.children = (Verify (NewCheck s)).1.ast.children) ∧
    ((Verify (NewCheck (s ++ t))).2 = none → (Verify (NewCheck s)).2 = none) := by
  have key : ∀ e, (Verify (NewCheck s)).2 = some e →
      (Verify (NewCheck (s ++ t))).2 = some e ∧
      (Verify (NewCheck (s ++ t))).1.ast.children =
        (Verify (NewCheck s)).1.ast.children := by
    intro e he
    rw [(Verify_NewCheck s).1] at he
    rw [(Verify_NewCheck (s ++ t)).1, (Verify_NewCheck (s ++ t)).2.1,
      (Verify_NewCheck s).2.1, flushedFrom_append,
      validate_append_of_error _ _ _ e he]
    exact ⟨he, rfl⟩
  refine ⟨key, ?_⟩
  intro h
  cases hs : (Verify (NewCheck s)).2 with
  | none => rfl
  | some e => rw [(key e hs).1] at h; cases h

/-- C10, at the input `SELECT a`, whose final character is not whitespace:
`Verify` returns `nil` with the run `a` still in the pending buffer, and the
accepted sequence holds `SELECT` only; `a` was neither classified nor
validated nor appended. The same holds of `SELECT FROM`, where the lexeme
left in the buffer is one the rule table does not allow after `SELECT`. -/
theorem verify_leaves_last_run_pending :
    (Verify (NewCheck "SELECT a".toList)).2 = none ∧
    (Verify (NewCheck "SELECT a".toList)).1.curToken = "a".toList ∧
    (Verify (NewCheck "SELECT a".toList)).1.ast.children.map astItem.value =
      ["SELECT".toList] ∧
    (Verify (NewCheck "SELECT FROM".toList)).2 = none ∧
    (Verify (NewCheck "SELECT FROM".toList)).1.curToken = "FROM".toList ∧
    (Verify (NewCheck "SELECT FROM".toList)).1.ast.children.map astItem.value =
      ["SELECT".toList] := by
  decide

/-! ## Invariants of the accepted sequence -/

theorem scanLoop_single (l : sqlLexer) (c : Char) : scanLoop [c] l = scanStep l [c] := by
  simp only [scanLoop]
  rcases scanStep l [c] with ⟨l', _ | e⟩ <;> rfl

theorem scanStep_children (l : sqlLexer) (c : Char) :
    (scanStep l [c]).1.ast.children =
      (validate l.ast.children (flushedFrom l.curToken [c])).1 := by
  rw [← scanLoop_single]
  exact (scanLoop_spec [c] l).2.1

theorem value_getAstItem (v : List Char) : (getAstItem v).value = v := rfl

theorem validate_take (q : List astItem) (xs : List (List Char)) :
    ∃ n, (validate q xs).1 = q ++ (xs.take n).map getAstItem := by
  induction xs generalizing q with
  | nil => exact ⟨0, by simp [validate]⟩
  | cons x rest ih =>
    by_cases h : allows q (kind x) = true
    · obtain ⟨n, hn⟩ := ih (q ++ [getAstItem x])
      exact ⟨n + 1, by simp [validate, h, hn]⟩
    · exact ⟨0, by simp [validate, h]⟩

theorem validate_prefix (q : List astItem) (xs : List (List Char)) :
    q <+: (validate q xs).1 := by
  obtain ⟨n, hn⟩ := validate_take q xs
  rw [hn]
  exact List.prefix_append _ _

theorem validate_ok (q : List astItem) (xs : List (List Char))
    (h : (validate q xs).2 = none) :
    (validate q xs).1 = q ++ xs.map getAstItem := by
  induction xs generalizing q with
  | nil => simp [validate]
  | cons x rest ih =>
    by_cases ha : allows q (kind x) = true
    · simp only [validate, ha, if_true] at h ⊢
      rw [ih _ h]
      simp
    · simp [validate, ha] at h

theorem allows_follows (q : List astItem) (v : List Char) (h : allows q (kind v) = true) :
    ∀ p ∈ q.getLast?, Follows p (getAstItem v) := by
  intro p hp
  unfold allows at h
  rw [Option.mem_def] at hp
  rw [hp] at h
  exact (validLvalue_iff _ _).mp h

theorem validate_chain (q : List astItem) (xs : List (List Char))
    (h : List.Chain' Follows q) : List.Chain' Follows (validate q xs).1 := by
  induction xs generalizing q with
  | nil => simpa [validate] using h
  | cons x rest ih =>
    by_cases ha : allows q (kind x) = true
    · simp only [validate, ha, if_true]
      apply ih
      refine List.Chain'.append h (List.chain'_singleton _) ?_
      intro p hp y hy
      simp only [List.head?_cons, Option.mem_def, Option.some.injEq] at hy
      subst hy
      exact allows_follows q x ha p hp
    · simpa [validate, ha] using h

/-- C11. The accepted sequence satisfies the rule table pairwise at every step
of the scan and at the return of `Verify`: after any number of runes of the
input have been read, and when `Verify` returns with `nil` or with an error,
every two consecutive accepted tokens `a`, `b` have the kind of `a` in
`syntaxRules` of the kind of `b`; and one step of the loop keeps this. -/
theorem accepted_sequence_adjacent (s p t : List Char) (h : s = p ++ t) :
    List.Chain' Follows (scanLoop p (NewCheck s)).1.ast.children ∧
    List.Chain' Follows (Verify (NewCheck s)).1.ast.children ∧
    (∀ (l : sqlLexer) (c : Char), List.Chain' Follows l.ast.children →
      List.Chain' Follows (scanStep l [c]).1.ast.children) := by
  subst h
  refine ⟨?_, ?_, ?_⟩
  · rw [(scanLoop_spec p (NewCheck (p ++ t))).2.1]
    exact validate_chain _ _ List.chain'_nil
  · rw [(Verify_NewCheck (p ++ t)).2.1]
    exact validate_chain _ _ List.chain'_nil
  · intro l c hl
    rw [scanStep_children]
    exact validate_chain _ _ hl

/-- C11, at `SELECT a FROM FROM t;` read up to its rejected second `FROM`, and
at one step from a lexer that holds `SELECT` and the pending run `a`. -/
theorem accepted_sequence_adjacent_witness :
    List.Chain' Follows
      (scanLoop "SELECT a FROM FROM ".toList
        (NewCheck "SELECT a FROM FROM t;".toList)).1.ast.children ∧
    List.Chain' Follows (Verify (NewCheck "SELECT a FROM FROM t;".toList)).1.ast.children ∧
    List.Chain' Follows
      (scanStep ⟨[], "a".toList, ⟨[getAstItem "SELECT".toList]⟩⟩ [' ']).1.ast.children :=
  ⟨(accepted_sequence_adjacent "SELECT a FROM FROM t;".toList "SELECT a FROM FROM ".toList
      "t;".toList (by decide)).1,
   (accepted_sequence_adjacent "SELECT a FROM FROM t;".toList "SELECT a FROM FROM ".toList
      "t;".toList (by decide)).2.1,
   (accepted_sequence_adjacent "SELECT a FROM FROM t;".toList "SELECT a FROM FROM ".toList
      "t;".toList (by decide)).2.2 ⟨[], "a".toList, ⟨[getAstItem "SELECT".toList]⟩⟩ ' '
      (List.chain'_singleton _)⟩

/-- On rune sequences: the accepted sequence of the scan of `s` is a prefix of
that of the scan of `s ++ t`, and a step of the loop only appends. -/
theorem append_only_runes (s t : List Char) :
    (Verify (NewCheck s)).1.ast.children <+: (Verify (NewCheck (s ++ t))).1.ast.children ∧
    (∀ (l : sqlLexer) (c : Char),
      l.ast.children <+: (scanStep l [c]).1.ast.children) := by
  refine ⟨?_, ?_⟩
  · rw [(Verify_NewCheck s).2.1, (Verify_NewCheck (s ++ t)).2.1, flushedFrom_append,
      validate_append]
    rcases hv : validate [] (flushedFrom [] s) with ⟨q, _ | e⟩
    · exact validate_prefix _ _
    · exact List.prefix_refl _
  · intro l c
    rw [scanStep_children]
    exact validate_prefix _ _

/-! ## Shape and raw text of the accepted tokens -/

theorem flushedFrom_shaped (cur cs : List Char)
    (hcur : ∀ c ∈ cur, isLetterOrDigit c = true) :
    ∀ v ∈ flushedFrom cur cs, LexemeShaped v := by
  induction cs generalizing cur with
  | nil => simp [flushedFrom]
  | cons c cs ih =>
    by_cases h : isLetterOrDigit c = true
    · simp only [flushedFrom, h, if_true]
      apply ih
      intro d hd
      rcases List.mem_append.mp hd with hd | hd
      · exact hcur d hd
      · rw [List.mem_singleton.mp hd]; exact h
    · have h : isLetterOrDigit c = false := by simpa using h
      intro v hv
      simp only [flushedFrom, h, Bool.false_eq_true, if_false, List.mem_append] at hv
      rcases hv with (hv | hv) | hv
      · unfold runLexeme at hv
        by_cases h0 : cur = []
        · simp [h0] at hv
        · simp only [h0, if_false, List.mem_singleton] at hv
          subst hv
          exact Or.inl ⟨h0, hcur⟩
      · unfold charLexeme at hv
        cases hs : isSpaceChar c
        · simp only [hs, Bool.false_eq_true, if_false, List.mem_singleton] at hv
          exact Or.inr ⟨c, hv, hs, h⟩
        · simp [hs] at hv
      · exact ih [] (by simp) v hv

theorem accepted_values (s : List Char) :
    ∃ n, (Verify (NewCheck s)).1.ast.children =
      ((flushedFrom [] s).take n).map getAstItem := by
  obtain ⟨n, hn⟩ := validate_take [] (flushedFrom [] s)
  exact ⟨n, by rw [(Verify_NewCheck s).2.1, hn]; rfl⟩

theorem accepted_value_shape (s : List Char) :
    ∀ x ∈ (Verify (NewCheck s)).1.ast.children, LexemeShaped x.value := by
  obtain ⟨n, hn⟩ := accepted_values s
  intro x hx
  rw [hn, List.mem_map] at hx
  obtain ⟨v, hv, rfl⟩ := hx
  exact flushedFrom_shaped [] s (by simp) v (List.mem_of_mem_take hv)

/-- C13, at the input `a<b`: `Verify` returns `nil` with the two accepted
tokens `a` and `<`, and the run `b` is left in the pending buffer, so that the
input does not yield the three tokens `a`, `<`, `b`; followed by a space it
does. -/
theorem punctuation_example_two_tokens :
    (Verify (NewCheck "a<b".toList)).2 = none ∧
    (Verify (NewCheck "a<b".toList)).1.ast.children.map astItem.value =
      ["a".toList, "<".toList] ∧
    (Verify (NewCheck "a<b".toList)).1.curToken = "b".toList ∧
    (Verify (NewCheck "a<b ".toList)).1.ast.children.map astItem.value =
      ["a".toList, "<".toList, "b".toList] := by
  decide

theorem flushed_flatten (cur cs : List Char) :
    (flushedFrom cur cs).flatten ++ pendingFrom cur cs = cur ++ stripWhitespace cs := by
  induction cs generalizing cur with
  | nil => simp [flushedFrom, pendingFrom, stripWhitespace]
  | cons c cs ih =>
    by_cases h : isLetterOrDigit c = true
    · have hs : isSpaceChar c = false := by
        cases hs : isSpaceChar c
        · rfl
        · rw [space_not_letterOrDigit c hs] at h; cases h
      have := ih (cur ++ [c])
      simp only [stripWhitespace] at this ⊢
      simp [flushedFrom, pendingFrom, h, this, List.filter_cons, hs]
    · have h : isLetterOrDigit c = false := by simpa using h
      have := ih []
      simp only [stripWhitespace] at this ⊢
      have hr : (runLexeme cur).flatten = cur := by
        unfold runLexeme
        by_cases h0 : cur = []
        · simp [h0]
        · simp [h0]
      cases hs : isSpaceChar c
      · simp [flushedFrom, pendingFrom, h, List.filter_cons, hs, charLexeme, hr,
          List.append_assoc, this]
      · simp [flushedFrom, pendingFrom, h, List.filter_cons, hs, charLexeme, hr,
          List.append_assoc, this]

/-- On rune sequences: after a scan without error the accepted raw texts and
the pending buffer spell the runes read, without the whitespace. -/
theorem raw_text_runes (s : List Char) (h : (Verify (NewCheck s)).2 = none) :
    ((Verify (NewCheck s)).1.ast.children.map astItem.value).flatten ++
      (Verify (NewCheck s)).1.curToken = stripWhitespace s := by
  have hv := h
  rw [(Verify_NewCheck s).1] at hv
  rw [(Verify_NewCheck s).2.1, (Verify_NewCheck s).2.2 hv, validate_ok _ _ hv]
  have hm : (flushedFrom [] s).map (astItem.value ∘ getAstItem) = flushedFrom [] s := by
    rw [show (astItem.value ∘ getAstItem) = id from rfl, List.map_id]
  simp only [List.nil_append, List.map_map, hm]
  simpa using flushed_flatten [] s

/-! ## Runs of letters and digits -/

theorem flushedFrom_run (cur r t : List Char) (c : Char)
    (hall : ∀ d ∈ r, isLetterOrDigit d = true) (hc : isLetterOrDigit c = false) :
    flushedFrom cur (r ++ c :: t) =
      runLexeme (cur ++ r) ++ charLexeme c ++ flushedFrom [] t := by
  induction r generalizing cur with
  | nil => simp [flushedFrom, hc]
  | cons d r ih =>
    have hd := hall d (List.mem_cons_self _ _)
    have := ih (cur ++ [d]) (fun e he => hall e (List.mem_cons_of_mem _ he))
    simpa [flushedFrom, hd] using this

theorem verify_after_run (u r t : List Char) (c : Char)
    (hu : ¬ ∃ d, u.getLast? = some d ∧ isLetterOrDigit d = true)
    (hr : r ≠ []) (hall : ∀ d ∈ r, isLetterOrDigit d = true)
    (hc : isLetterOrDigit c = false)
    (hreach : (Verify (NewCheck u)).2 = none) :
    (Verify (NewCheck (u ++ r ++ c :: t))).2 =
      (validate (Verify (NewCheck u)).1.ast.children
        (r :: (charLexeme c ++ flushedFrom [] t))).2 ∧
    (Verify (NewCheck (u ++ r ++ c :: t))).1.ast.children =
      (validate (Verify (NewCheck u)).1.ast.children
        (r :: (charLexeme c ++ flushedFrom [] t))).1 := by
  have hf : flushedFrom [] (u ++ r ++ c :: t) =
      flushedFrom [] u ++ (r :: (charLexeme c ++ flushedFrom [] t)) := by
    rw [List.append_assoc, flushedFrom_append, pendingFrom_nil_of_last u hu,
      flushedFrom_run [] r t c hall hc]
    simp [runLexeme, hr]
  rw [(Verify_NewCheck u).1] at hreach
  rw [(Verify_NewCheck (u ++ r ++ c :: t)).1, (Verify_NewCheck (u ++ r ++ c :: t)).2.1,
    (Verify_NewCheck u).2.1, hf, validate_append]
  rcases hv : validate [] (flushedFrom [] u) with ⟨q, _ | e⟩
  · exact ⟨rfl, rfl⟩
  · rw [hv] at hreach; cases hreach

theorem lexemes_cons_other (c : Char) (t : List Char) (hc : isLetterOrDigit c = false) :
    charLexeme c ++ flushedFrom [] t <+: lexemes (c :: t) := by
  unfold lexemes
  simp only [lexemesFrom, hc, Bool.false_eq_true, if_false, runLexeme, if_true,
    List.nil_append]
  rw [lexemesFrom_eq, ← List.append_assoc]
  exact List.prefix_append _ _

/-- C15. A maximal run `r` of ASCII letters and digits that is followed by a
character `c` that is not one, and that the scan reaches (the text `u` before
it is scanned without error), is classified once, as a whole: if `check`
accepts its kind, the accepted sequence continues with the one token
`getAstItem r`, whose raw text is `r`, and then with lexemes of the rest of the
input; if `check` rejects its kind, `Verify` returns that error and accepts
nothing more. -/
theorem run_is_one_token (u r t : List Char) (c : Char)
    (hu : ¬ ∃ d, u.getLast? = some d ∧ isLetterOrDigit d = true)
    (hr : r ≠ []) (hall : ∀ d ∈ r, isLetterOrDigit d = true)
    (hc : isLetterOrDigit c = false)
    (hreach : (Verify (NewCheck u)).2 = none) :
    ((check (Verify (NewCheck u)).1 (kind r)).2 = none →
      ∃ rest, (Verify (NewCheck (u ++ r ++ c :: t))).1.ast.children =
          (Verify (NewCheck u)).1.ast.children ++ getAstItem r :: rest ∧
        rest.map astItem.value <+: lexemes (c :: t)) ∧
    (∀ e, (check (Verify (NewCheck u)).1 (kind r)).2 = some e →
      (Verify (NewCheck (u ++ r ++ c :: t))).2 = some e ∧
      (Verify (NewCheck (u ++ r ++ c :: t))).1.ast.children =
        (Verify (NewCheck u)).1.ast.children) ∧
    (getAstItem r).value = r ∧ (getAstItem r).tok = kind r := by
  obtain ⟨h2, h1⟩ := verify_after_run u r t c hu hr hall hc hreach
  refine ⟨?_, ?_, rfl, rfl⟩
  · intro hk
    rw [check_eq] at hk
    have ha : allows (Verify (NewCheck u)).1.ast.children (kind r) = true := by
      cases ha : allows (Verify (NewCheck u)).1.ast.children (kind r)
      · simp [ha] at hk
      · rfl
    obtain ⟨n, hn⟩ := validate_take
      ((Verify (NewCheck u)).1.ast.children ++ [getAstItem r])
      (charLexeme c ++ flushedFrom [] t)
    refine ⟨((charLexeme c ++ flushedFrom [] t).take n).map getAstItem, ?_, ?_⟩
    · rw [h1]
      simp only [validate, ha, if_true, hn, List.append_assoc, List.singleton_append]
    · rw [List.map_map, show (astItem.value ∘ getAstItem) = id from rfl, List.map_id]
      exact (List.take_prefix _ _).trans (lexemes_cons_other c t hc)
  · intro e hk
    rw [check_eq] at hk
    have ha : allows (Verify (NewCheck u)).1.ast.children (kind r) = false := by
      cases ha : allows (Verify (NewCheck u)).1.ast.children (kind r)
      · rfl
      · simp [ha] at hk
    rw [h1, h2]
    simp only [ha, Bool.false_eq_true, if_false, Option.some.injEq] at hk
    simp [validate, ha, hk]

/-- C15, at the run `20abc` of `SELECT 20abc FROM t;`, which is accepted as
one identifier, and at the run `20` in the same place, which is rejected as one
numeral. -/
theorem run_is_one_token_witness :
    ((Verify (NewCheck "SELECT ".toList)).2 = none ∧
      ∃ rest, (Verify (NewCheck ("SELECT ".toList ++ "20abc".toList ++
          ' ' :: "FROM t;".toList))).1.ast.children =
          (Verify (NewCheck "SELECT ".toList)).1.ast.children ++
            getAstItem "20abc".toList :: rest ∧
        rest.map astItem.value <+: lexemes (' ' :: "FROM t;".toList)) ∧
    kind "20abc".toList = tokenIdent ∧
    (Verify (NewCheck ("SELECT ".toList ++ "20".toList ++ ' ' :: "FROM t;".toList))).2 =
      some "left side of \"(0..9)\" must be one of [WHERE < > =]" :=
  ⟨⟨by decide,
    (run_is_one_token "SELECT ".toList "20abc".toList "FROM t;".toList ' ' (by decide)
      (by decide) (by decide) (by decide) (by decide)).1 (by decide)⟩,
   by decide,
   ((run_is_one_token "SELECT ".toList "20".toList "FROM t;".toList ' ' (by decide)
      (by decide) (by decide) (by decide) (by decide)).2.1 _ (by decide)).1⟩

/-- C16, at `SELECT 20abc FROM t;`: `Verify` returns `nil` and the second
accepted token is an identifier whose raw text `20abc` starts with a decimal
digit; `abc20` in the same place is one identifier as well. -/
theorem identifier_starts_with_digit :
    (Verify (NewCheck "SELECT 20abc FROM t;".toList)).2 = none ∧
    (Verify (NewCheck "SELECT 20abc FROM t;".toList)).1.ast.children.map
        (fun x => (x.tok, x.value)) =
      [(tokenSelect, "SELECT".toList), (tokenIdent, "20abc".toList),
        (tokenFrom, "FROM".toList), (tokenIdent, "t".toList), (tokenSemicolon, ";".toList)] ∧
    (Verify (NewCheck "SELECT abc20 FROM t;".toList)).2 = none ∧
    (Verify (NewCheck "SELECT abc20 FROM t;".toList)).1.ast.children.map
        (fun x => (x.tok, x.value)) =
      [(tokenSelect, "SELECT".toList), (tokenIdent, "abc20".toList),
        (tokenFrom, "FROM".toList), (tokenIdent, "t".toList), (tokenSemicolon, ";".toList)] := by
  decide

/-! ## SELECT, display names, positions -/

theorem kind_not_unclassified (v : List Char) :
    kind v ∉ [tokenIllegal, tokenEOF, tokenLeftBracket, tokenRightBracket] := by
  have hm : kind v ∈ classifierKinds := by
    unfold kind getAstItem
    simp only [astItem.tok]
    iterate 10 (refine ite_pred (fun t => t ∈ classifierKinds) _ _ _ (by decide) ?_)
    decide
  generalize kind v = k at hm
  cases k <;> simp_all [classifierKinds]

theorem accepted_from_classifier (s : List Char) :
    ∀ x ∈ (Verify (NewCheck s)).1.ast.children, ∃ v, x = getAstItem v := by
  obtain ⟨n, hn⟩ := accepted_values s
  intro x hx
  rw [hn, List.mem_map] at hx
  obtain ⟨v, _, rfl⟩ := hx
  exact ⟨v, rfl⟩

theorem chain_tail_pred {α : Type} (R : α → α → Prop) (l : List α) (h : List.Chain' R l) :
    ∀ x ∈ l.tail, ∃ p ∈ l, R p x := by
  induction l with
  | nil => simp
  | cons a rest ih =>
    cases rest with
    | nil => simp
    | cons b rest' =>
      rw [List.chain'_cons] at h
      intro x hx
      simp only [List.tail_cons] at hx
      rcases List.mem_cons.mp hx with rfl | hx'
      · exact ⟨a, List.mem_cons_self _ _, h.1⟩
      · obtain ⟨p, hp, hR⟩ := ih h.2 x (by simpa using hx')
        exact ⟨p, List.mem_cons_of_mem _ hp, hR⟩

/-- C17. The classifier never gives the illegal, end-marker, left-bracket or
right-bracket kind, and every allowed predecessor of SELECT is one of these;
so a run classified as SELECT that is flushed after the scan has accepted at
least one token makes `Verify` fail, with the error for SELECT, and in the
accepted sequence of any input no token after the first is a SELECT. -/
theorem select_only_first (s u r t : List Char) (c : Char)
    (hu : ¬ ∃ d, u.getLast? = some d ∧ isLetterOrDigit d = true)
    (hr : r ≠ []) (hall : ∀ d ∈ r, isLetterOrDigit d = true)
    (hc : isLetterOrDigit c = false)
    (hreach : (Verify (NewCheck u)).2 = none)
    (hne : (Verify (NewCheck u)).1.ast.children ≠ [])
    (hk : kind r = tokenSelect) :
    (∀ v, kind v ∉ [tokenIllegal, tokenEOF, tokenLeftBracket, tokenRightBracket]) ∧
    (∀ p ∈ syntaxRules tokenSelect,
      p ∈ [tokenIllegal, tokenEOF, tokenLeftBracket, tokenRightBracket]) ∧
    (Verify (NewCheck (u ++ r ++ c :: t))).2 =
      some "left side of \"SELECT\" must be one of [EOF (]" ∧
    (∀ x ∈ (Verify (NewCheck s)).1.ast.children.tail, x.tok ≠ tokenSelect) := by
  refine ⟨kind_not_unclassified, by decide, ?_, ?_⟩
  · rw [(verify_after_run u r t c hu hr hall hc hreach).1]
    obtain ⟨p, hp⟩ : ∃ p, (Verify (NewCheck u)).1.ast.children.getLast? = some p := by
      cases hq : (Verify (NewCheck u)).1.ast.children.getLast? with
      | none => exact absurd (List.getLast?_eq_none_iff.mp hq) hne
      | some p => exact ⟨p, rfl⟩
    obtain ⟨v, hv⟩ := accepted_from_classifier u p (List.mem_of_getLast?_eq_some hp)
    have hnot := kind_not_unclassified v
    have ha : allows (Verify (NewCheck u)).1.ast.children tokenSelect = false := by
      unfold allows
      rw [hp, hv]
      cases hval : validLvalue (getAstItem v).tok (syntaxRules tokenSelect)
      · simp only [hval]
      · have hm := (validLvalue_iff _ _).mp hval
        rw [kind_getAstItem] at hm
        simp only [syntaxRules, List.mem_cons, List.mem_singleton, List.not_mem_nil,
          or_false] at hm
        simp only [List.mem_cons, List.mem_singleton, List.not_mem_nil, or_false,
          not_or] at hnot
        rcases hm with hm | hm
        · exact absurd hm hnot.2.1
        · exact absurd hm hnot.2.2.1
    simp only [validate, hk, ha, Bool.false_eq_true, if_false]
    decide
  · intro x hx hsel
    have hchain : List.Chain' Follows (Verify (NewCheck s)).1.ast.children := by
      rw [(Verify_NewCheck s).2.1]
      exact validate_chain _ _ List.chain'_nil
    obtain ⟨p, hp, hR⟩ := chain_tail_pred Follows _ hchain x hx
    obtain ⟨v, hv⟩ := accepted_from_classifier s p hp
    have hnot := kind_not_unclassified v
    unfold Follows at hR
    rw [hsel, hv, kind_getAstItem] at hR
    simp only [syntaxRules, List.mem_cons, List.mem_singleton, List.not_mem_nil,
      or_false] at hR
    simp only [List.mem_cons, List.mem_singleton, List.not_mem_nil, or_false,
      not_or] at hnot
    rcases hR with hm | hm
    · exact absurd hm hnot.2.1
    · exact absurd hm hnot.2.2.1

/-- C17, at `(SELECT a FROM t;`: the bracket is accepted as the first token,
the run `SELECT` is flushed after it and rejected. -/
theorem select_only_first_witness :
    (Verify (NewCheck "(".toList)).2 = none ∧
    kind "SELECT".toList = tokenSelect ∧
    (Verify (NewCheck ("(".toList ++ "SELECT".toList ++ ' ' :: "a FROM t;".toList))).2 =
      some "left side of \"SELECT\" must be one of [EOF (]" ∧
    (Verify (NewCheck "(SELECT a FROM t;".toList)).2 ≠ none :=
  ⟨by decide, by decide,
   (select_only_first [] "(".toList "SELECT".toList "a FROM t;".toList ' ' (by decide)
      (by decide) (by decide) (by decide) (by decide)
      (fun h => absurd (congrArg List.length h) (by decide)) (by decide)).2.2.1,
   by decide⟩

/-- C18, at the lexeme `;`: the display name of the kind `getAstItem` gives it
is `illegal`, and the error for a rejected semicolon quotes `illegal`; for the
eight other keyword and punctuation lexemes the display name is the lexeme,
upper-cased for the keywords. -/
theorem semicolon_displays_illegal :
    (getAstItem ";".toList).tok = tokenSemicolon ∧
    (getAstItem ";".toList).tok.String = "illegal" ∧
    (Verify (NewCheck "SELECT ;".toList)).2 =
      some "left side of \"illegal\" must be one of [identifier (0..9)]" ∧
    ["select", "from", "where", "*", ",", "<", ">", "="].map
        (fun x => (getAstItem x.toList).tok.String) =
      ["SELECT", "FROM", "WHERE", "*", ",", "<", ">", "="] := by
  decide

/-- C19, refuted at `SELECT a `: the two accepted tokens `SELECT` and `a` both
have `pos` 0, while the lexeme `a` spans the indices 7 to 8 of the input. -/
theorem pos_not_within_span :
    (Verify (NewCheck "SELECT a ".toList)).1.ast.children.map astItem.value =
      ["SELECT".toList, "a".toList] ∧
    (Verify (NewCheck "SELECT a ".toList)).1.ast.children.map astItem.pos = [0, 0] ∧
    lexemeSpans "SELECT a ".toList = [(0, 6), (7, 8)] ∧
    posWithinSpans "SELECT a ".toList = false := by
  decide

theorem pos_getAstItem (v : List Char) : (getAstItem v).pos = 0 := rfl

/-- C19, amended. The field `pos` of every accepted token is 0: `getAstItem`
does not assign it and nothing else writes it. -/
theorem accepted_pos_zero (s : List Char) (x : astItem)
    (hx : x ∈ (Verify (NewCheck s)).1.ast.children) : x.pos = 0 := by
  obtain ⟨v, hv⟩ := accepted_from_classifier s x hx
  rw [hv, pos_getAstItem]

/-- C19, amended, at the last token of `SELECT a FROM t;`. -/
theorem accepted_pos_zero_witness :
    getAstItem ";".toList ∈ (Verify (NewCheck "SELECT a FROM t;".toList)).1.ast.children ∧
    (getAstItem ";".toList).pos = 0 :=
  ⟨by
    have h : (Verify (NewCheck "SELECT a FROM t;".toList)).1.ast.children =
        ["SELECT".toList, "a".toList, "FROM".toList, "t".toList, ";".toList].map
          getAstItem := by
      rfl
    rw [h]
    exact List.mem_map_of_mem _ (by simp),
   accepted_pos_zero "SELECT a FROM t;".toList (getAstItem ";".toList) (by
    have h : (Verify (NewCheck "SELECT a FROM t;".toList)).1.ast.children =
        ["SELECT".toList, "a".toList, "FROM".toList, "t".toList, ";".toList].map
          getAstItem := by
      rfl
    rw [h]
    exact List.mem_map_of_mem _ (by simp))⟩

/-! ## Statements given by their bytes -/

theorem DecodeRune_two (p0 b1 : Nat) (rest : List Nat) (h0 : 0xC2 ≤ p0 ∧ p0 ≤ 0xDF)
    (h1 : 0x80 ≤ b1 ∧ b1 ≤ 0xBF) :
    DecodeRune (p0 :: b1 :: rest) = (Char.ofNat (p0 % 32 * 64 + b1 % 64), 2) := by
  have hs : seqSize p0 = 2 := by simp only [seqSize]; split_ifs; rfl
  have hlo : acceptLo p0 = 0x80 := by simp only [acceptLo]; split_ifs <;> omega
  have hhi : acceptHi p0 = 0xBF := by simp only [acceptHi]; split_ifs <;> omega
  have ha : ¬ p0 < 0x80 := by omega
  have hb : ¬ (b1 < 0x80 ∨ 0xBF < b1) := by omega
  simp [DecodeRune, hs, hlo, hhi, ha, hb]

theorem DecodeRune_three (p0 b1 b2 : Nat) (rest : List Nat) (h0 : 0xE0 ≤ p0 ∧ p0 ≤ 0xEF)
    (h1 : acceptLo p0 ≤ b1 ∧ b1 ≤ acceptHi p0) (h2 : 0x80 ≤ b2 ∧ b2 ≤ 0xBF) :
    DecodeRune (p0 :: b1 :: b2 :: rest) =
      (Char.ofNat (p0 % 16 * 4096 + b1 % 64 * 64 + b2 % 64), 3) := by
  have hs : seqSize p0 = 3 := by simp only [seqSize]; split_ifs <;> omega
  have ha : ¬ p0 < 0x80 := by omega
  have hb : ¬ (b1 < acceptLo p0 ∨ acceptHi p0 < b1) := by omega
  have hc : ¬ (b2 < 0x80 ∨ 0xBF < b2) := by omega
  simp [DecodeRune, hs, ha, hb, hc]

theorem DecodeRune_four (p0 b1 b2 b3 : Nat) (rest : List Nat) (h0 : 0xF0 ≤ p0 ∧ p0 ≤ 0xF4)
    (h1 : acceptLo p0 ≤ b1 ∧ b1 ≤ acceptHi p0) (h2 : 0x80 ≤ b2 ∧ b2 ≤ 0xBF)
    (h3 : 0x80 ≤ b3 ∧ b3 ≤ 0xBF) :
    DecodeRune (p0 :: b1 :: b2 :: b3 :: rest) =
      (Char.ofNat (p0 % 8 * 262144 + b1 % 64 * 4096 + b2 % 64 * 64 + b3 % 64), 4) := by
  have hs : seqSize p0 = 4 := by simp only [seqSize]; split_ifs <;> omega
  have ha : ¬ p0 < 0x80 := by omega
  have hb : ¬ (b1 < acceptLo p0 ∨ acceptHi p0 < b1) := by omega
  have hc : ¬ (b2 < 0x80 ∨ 0xBF < b2) := by omega
  have hd : ¬ (b3 < 0x80 ∨ 0xBF < b3) := by omega
  simp [DecodeRune, hs, ha, hb, hc, hd]

theorem char_valid_toNat (c : Char) :
    c.toNat < 0xD800 ∨ (0xDFFF < c.toNat ∧ c.toNat < 0x110000) := c.valid

theorem ScanRunes_encodeRune (c : Char) (rest : List Nat) :
    ScanRunes (encodeRune c ++ rest) = c :: ScanRunes rest := by
  have hv := char_valid_toNat c
  have hc : Char.ofNat c.toNat = c := Char.ofNat_toNat c
  unfold encodeRune
  generalize c.toNat = n at hv hc ⊢
  by_cases h1 : n < 0x80
  · have hd : DecodeRune (n :: rest) = (Char.ofNat n, 1) := by simp [DecodeRune, h1]
    simp only [h1, if_true, List.cons_append, List.nil_append]
    conv_lhs => rw [ScanRunes.eq_def]
    simp [hd, h1, hc]
  · by_cases h2 : n < 0x800
    · simp only [h1, h2, if_false, if_true, List.cons_append, List.nil_append]
      have hd := DecodeRune_two (0xC0 + n / 64) (0x80 + n % 64) rest (by omega) (by omega)
      have he : (0xC0 + n / 64) % 32 * 64 + (0x80 + n % 64) % 64 = n := by omega
      rw [he, hc] at hd
      simp [ScanRunes, hd]
    · by_cases h3 : n < 0x10000
      · simp only [h1, h2, h3, if_false, if_true, List.cons_append, List.nil_append]
        have hd := DecodeRune_three (0xE0 + n / 4096) (0x80 + n / 64 % 64) (0x80 + n % 64) rest
          (by omega) (by simp only [acceptLo, acceptHi]; split_ifs <;> omega) (by omega)
        have he : (0xE0 + n / 4096) % 16 * 4096 + (0x80 + n / 64 % 64) % 64 * 64 +
            (0x80 + n % 64) % 64 = n := by omega
        rw [he, hc] at hd
        simp [ScanRunes, hd]
      · simp only [h1, h2, h3, if_false, List.cons_append, List.nil_append]
        have hd := DecodeRune_four (0xF0 + n / 262144) (0x80 + n / 4096 % 64)
          (0x80 + n / 64 % 64) (0x80 + n % 64) rest
          (by omega) (by simp only [acceptLo, acceptHi]; split_ifs <;> omega) (by omega)
          (by omega)
        have he : (0xF0 + n / 262144) % 8 * 262144 + (0x80 + n / 4096 % 64) % 64 * 4096 +
            (0x80 + n / 64 % 64) % 64 * 64 + (0x80 + n % 64) % 64 = n := by omega
        rw [he, hc] at hd
        simp [ScanRunes, hd]

theorem ScanRunes_utf8_append (s : List Char) (t : List Nat) :
    ScanRunes (utf8 s ++ t) = s ++ ScanRunes t := by
  induction s with
  | nil => simp [utf8]
  | cons c s ih =>
    have : utf8 (c :: s) ++ t = encodeRune c ++ (utf8 s ++ t) := by simp [utf8]
    rw [this, ScanRunes_encodeRune, ih]
    rfl

theorem ScanRunes_utf8 (s : List Char) : ScanRunes (utf8 s) = s := by
  have := ScanRunes_utf8_append s []
  simpa [ScanRunes] using this

theorem NewCheckBuffered_eq (b : List Nat) : NewCheckBuffered b = NewCheck (ScanRunes b) := rfl

theorem NewCheckBuffered_utf8 (s : List Char) : NewCheckBuffered (utf8 s) = NewCheck s := by
  rw [NewCheckBuffered_eq, ScanRunes_utf8]


theorem encodeRune_strip (c : Char) :
    stripWhitespaceBytes (encodeRune c) = if isSpaceChar c then [] else encodeRune c := by
  have hc : Char.ofNat c.toNat = c := Char.ofNat_toNat c
  by_cases hs : isSpaceChar c = true
  · simp only [hs, if_true]
    simp only [isSpaceChar, Bool.or_eq_true, decide_eq_true_eq] at hs
    rcases hs with ((h | h) | h) | h <;> subst h <;> decide
  · have hs' : isSpaceChar c = false := by simpa using hs
    simp only [hs', Bool.false_eq_true, if_false]
    have hn : c.toNat ≠ 0x20 ∧ c.toNat ≠ 0x09 ∧ c.toNat ≠ 0x0A ∧ c.toNat ≠ 0x0D := by
      refine ⟨?_, ?_, ?_, ?_⟩ <;> intro h <;> rw [h] at hc <;> subst hc <;>
        exact absurd hs' (by decide)
    have hall : ∀ x ∈ encodeRune c, x ≠ 0x20 ∧ x ≠ 0x09 ∧ x ≠ 0x0A ∧ x ≠ 0x0D := by
      unfold encodeRune
      generalize c.toNat = n at hn
      intro x hx
      split_ifs at hx <;>
        simp only [List.mem_cons, List.mem_singleton, List.not_mem_nil, or_false] at hx <;>
        omega
    unfold stripWhitespaceBytes
    rw [List.filter_eq_self]
    intro x hx
    have := hall x hx
    simp [this.1, this.2.1, this.2.2.1, this.2.2.2]

theorem utf8_stripWhitespace (s : List Char) :
    utf8 (stripWhitespace s) = stripWhitespaceBytes (utf8 s) := by
  induction s with
  | nil => rfl
  | cons c s ih =>
    have h1 : utf8 (c :: s) = encodeRune c ++ utf8 s := by simp [utf8]
    have h2 : stripWhitespaceBytes (encodeRune c ++ utf8 s) =
        stripWhitespaceBytes (encodeRune c) ++ stripWhitespaceBytes (utf8 s) := by
      simp [stripWhitespaceBytes]
    rw [h1, h2, encodeRune_strip, ← ih]
    cases hs : isSpaceChar c
    · simp [stripWhitespace, List.filter_cons, hs, utf8]
    · simp [stripWhitespace, List.filter_cons, hs]

/-- C9, refuted at `s` = `SELECT ` followed by the bytes E2 82, the first two
of the three bytes of the euro sign, and `t` = the byte AC followed by
` FROM t;`: the scanner delivers U+FFFD twice for the cut rune, so that
`Verify` on `s` rejects the second of two identifiers, while `s ++ t` is
`SELECT € FROM t;` and `Verify` accepts it. -/
theorem fail_fast_cut_rune :
    (Verify (NewCheckBuffered (utf8 "SELECT ".toList ++ [0xE2, 0x82]))).2 =
      some "left side of \"identifier\" must be one of [SELECT FROM WHERE < > ,]" ∧
    (utf8 "SELECT ".toList ++ [0xE2, 0x82]) ++ (0xAC :: utf8 " FROM t;".toList) =
      utf8 "SELECT € FROM t;".toList ∧
    (Verify (NewCheckBuffered
      ((utf8 "SELECT ".toList ++ [0xE2, 0x82]) ++ (0xAC :: utf8 " FROM t;".toList)))).2 =
      none := by
  decide

/-- C9, amended. When `s` is valid UTF-8 and `t` is any byte string: if
`Verify` on `s` returns an error, `Verify` on `s ++ t` returns the same error
and leaves the same accepted sequence; and if `Verify` accepts `s ++ t` it
accepts `s`. -/
theorem verify_fail_fast_utf8 (s : List Char) (t : List Nat) :
    (∀ e, (Verify (NewCheckBuffered (utf8 s))).2 = some e →
      (Verify (NewCheckBuffered (utf8 s ++ t))).2 = some e ∧
      (Verify (NewCheckBuffered (utf8 s ++ t))).1.ast.children =
        (Verify (NewCheckBuffered (utf8 s))).1.ast.children) ∧
    ((Verify (NewCheckBuffered (utf8 s ++ t))).2 = none →
      (Verify (NewCheckBuffered (utf8 s))).2 = none) := by
  rw [NewCheckBuffered_eq (utf8 s ++ t), ScanRunes_utf8_append, NewCheckBuffered_utf8]
  exact fail_fast_runes s (ScanRunes t)

/-- C9, amended, at the rejected `SELECT FROM t` extended by a semicolon, the
invalid byte FF and `SELECT a FROM t;`: the error and the accepted sequence
are those of `SELECT FROM t`. -/
theorem verify_fail_fast_utf8_witness :
    (Verify (NewCheckBuffered (utf8 "SELECT FROM t".toList))).2 =
      some "left side of \"FROM\" must be one of [identifier *]" ∧
    (Verify (NewCheckBuffered (utf8 "SELECT FROM t".toList ++
      (0x3B :: 0xFF :: utf8 " SELECT a FROM t;".toList)))).2 =
      some "left side of \"FROM\" must be one of [identifier *]" ∧
    (Verify (NewCheckBuffered (utf8 "SELECT FROM t".toList ++
      (0x3B :: 0xFF :: utf8 " SELECT a FROM t;".toList)))).1.ast.children =
      (Verify (NewCheckBuffered (utf8 "SELECT FROM t".toList))).1.ast.children :=
  ⟨by decide,
   (verify_fail_fast_utf8 "SELECT FROM t".toList
      (0x3B :: 0xFF :: utf8 " SELECT a FROM t;".toList)).1 _ (by decide)⟩

/-- C12, refuted at `s` = the byte C3 and `t` = the byte A9: `Verify` on `s`
leaves one identifier with the raw text U+FFFD, `Verify` on `s ++ t`, the
encoding of U+00E9, leaves one identifier with the raw text U+00E9, and the
first sequence is not a prefix of the second. -/
theorem append_only_cut_rune :
    (Verify (NewCheckBuffered [0xC3])).1.ast.children.map (fun x => (x.tok, x.value)) =
      [(tokenIdent, [Char.ofNat 0xFFFD])] ∧
    (Verify (NewCheckBuffered ([0xC3] ++ [0xA9]))).1.ast.children.map
        (fun x => (x.tok, x.value)) =
      [(tokenIdent, [Char.ofNat 0xE9])] ∧
    ¬ ((Verify (NewCheckBuffered [0xC3])).1.ast.children <+:
      (Verify (NewCheckBuffered ([0xC3] ++ [0xA9]))).1.ast.children) := by
  refine ⟨by decide, by decide, ?_⟩
  intro h
  have hm := List.IsPrefix.map astItem.value h
  have h1 : (Verify (NewCheckBuffered [0xC3])).1.ast.children.map astItem.value =
      [[Char.ofNat 0xFFFD]] := by decide
  have h2 : (Verify (NewCheckBuffered ([0xC3] ++ [0xA9]))).1.ast.children.map astItem.value =
      [[Char.ofNat 0xE9]] := by decide
  rw [h1, h2] at hm
  obtain ⟨r, hr⟩ := hm
  simp only [List.singleton_append, List.cons.injEq] at hr
  exact absurd hr.1 (by decide)

/-- C12, amended. When `s` is valid UTF-8 and `t` is any byte string, the
accepted sequence `Verify` leaves on `s` is a prefix of the one it leaves on
`s ++ t`; and for every lexer and rune, the accepted sequence before a step of
the loop is a prefix of the sequence after it. -/
theorem accepted_sequence_append_only_utf8 (s : List Char) (t : List Nat) :
    (Verify (NewCheckBuffered (utf8 s))).1.ast.children <+:
      (Verify (NewCheckBuffered (utf8 s ++ t))).1.ast.children ∧
    (∀ (l : sqlLexer) (c : Char),
      l.ast.children <+: (scanStep l [c]).1.ast.children) := by
  rw [NewCheckBuffered_eq (utf8 s ++ t), ScanRunes_utf8_append, NewCheckBuffered_utf8]
  exact append_only_runes s (ScanRunes t)

/-- C14, refuted at `SELECT `, the byte FF, ` FROM t;`: `Verify` returns `nil`,
and the accepted raw texts spell `SELECT`, the three bytes EF BF BD of U+FFFD,
`FROM`, `t`, `;`, which is not the input without its whitespace: the byte FF is
lost. -/
theorem raw_text_invalid_byte :
    (Verify (NewCheckBuffered
      (utf8 "SELECT ".toList ++ 0xFF :: utf8 " FROM t;".toList))).2 = none ∧
    utf8 (((Verify (NewCheckBuffered
        (utf8 "SELECT ".toList ++ 0xFF :: utf8 " FROM t;".toList))).1.ast.children.map
          astItem.value).flatten ++
      (Verify (NewCheckBuffered
        (utf8 "SELECT ".toList ++ 0xFF :: utf8 " FROM t;".toList))).1.curToken) =
      utf8 "SELECT".toList ++ [0xEF, 0xBF, 0xBD] ++ utf8 "FROMt;".toList ∧
    stripWhitespaceBytes (utf8 "SELECT ".toList ++ 0xFF :: utf8 " FROM t;".toList) =
      utf8 "SELECT".toList ++ [0xFF] ++ utf8 "FROMt;".toList ∧
    utf8 (((Verify (NewCheckBuffered
        (utf8 "SELECT ".toList ++ 0xFF :: utf8 " FROM t;".toList))).1.ast.children.map
          astItem.value).flatten ++
      (Verify (NewCheckBuffered
        (utf8 "SELECT ".toList ++ 0xFF :: utf8 " FROM t;".toList))).1.curToken) ≠
      stripWhitespaceBytes (utf8 "SELECT ".toList ++ 0xFF :: utf8 " FROM t;".toList) := by
  decide

/-- C14, amended. When `Verify` returns `nil` on the bytes `b`, the raw texts
of the accepted tokens, concatenated in order and followed by the pending
buffer, are the runes the scanner delivers for `b` without the whitespace
characters; and when `b` is valid UTF-8, their bytes are `b` without its
whitespace bytes. -/
theorem raw_text_preserved_utf8 (b : List Nat)
    (h : (Verify (NewCheckBuffered b)).2 = none) :
    ((Verify (NewCheckBuffered b)).1.ast.children.map astItem.value).flatten ++
      (Verify (NewCheckBuffered b)).1.curToken = stripWhitespace (ScanRunes b) ∧
    (∀ s : List Char, b = utf8 s →
      utf8 (((Verify (NewCheckBuffered b)).1.ast.children.map astItem.value).flatten ++
        (Verify (NewCheckBuffered b)).1.curToken) = stripWhitespaceBytes b) := by
  have key := raw_text_runes (ScanRunes b) h
  refine ⟨key, ?_⟩
  intro s hs
  have key' : ((Verify (NewCheckBuffered b)).1.ast.children.map astItem.value).flatten ++
      (Verify (NewCheckBuffered b)).1.curToken = stripWhitespace (ScanRunes b) := key
  rw [key', hs, ScanRunes_utf8, utf8_stripWhitespace]

/-- C14, amended, at `SeLeCT  a1,\tb FROM t`: the accepted raw texts and the
pending run `t` spell the input without its blanks, in the case it was written
in. -/
theorem raw_text_preserved_utf8_witness :
    (Verify (NewCheckBuffered (utf8 "SeLeCT  a1,\tb FROM t".toList))).2 = none ∧
    ((Verify (NewCheckBuffered (utf8 "SeLeCT  a1,\tb FROM t".toList))).1.ast.children.map
        astItem.value).flatten ++
      (Verify (NewCheckBuffered (utf8 "SeLeCT  a1,\tb FROM t".toList))).1.curToken =
      "SeLeCTa1,bFROMt".toList ∧
    utf8 (((Verify (NewCheckBuffered
        (utf8 "SeLeCT  a1,\tb FROM t".toList))).1.ast.children.map astItem.value).flatten ++
      (Verify (NewCheckBuffered (utf8 "SeLeCT  a1,\tb FROM t".toList))).1.curToken) =
      utf8 "SeLeCTa1,bFROMt".toList :=
  ⟨by decide,
   (raw_text_preserved_utf8 (utf8 "SeLeCT  a1,\tb FROM t".toList) (by decide)).1.trans
     (by decide),
   ((raw_text_preserved_utf8 (utf8 "SeLeCT  a1,\tb FROM t".toList) (by decide)).2
     "SeLeCT  a1,\tb FROM t".toList rfl).trans (by decide)⟩

end sqlcheck
